import Mathlib

/-!
# Verification of the FinanceGPT orchestration layer

Shallow embedding of the decision logic of the repository:

* `groq_version/logger.py` — the `SensitiveDataFilter` log-redaction filter:
  the six secret-shaped regular expressions, the sequential `re.sub`
  replacement of `_sanitize_text`, and the record filter.
* `ollama_version/error_handler.py` — the error taxonomy (`ErrorType`,
  `FinancialAgentError.to_dict`) and the classification functions
  `format_error_response`, `handle_agent_execution_error`, `handle_api_error`.
* `ollama_version/financial_agent.py` — the `execute_query` dispatch.

Text is modelled as `List Char`.  Python's `re.IGNORECASE` matching is
modelled by comparing `Char.toLower` of the subject character with the
(lower-case) literal character; this covers the ASCII case folding that the
patterns in the source rely on.
-/

namespace FinanceGPT

/-- `String` literal to `List Char` shorthand. -/
def lstr (s : String) : List Char := s.toList

/-! ## Character classes of the sensitive patterns

Python's `\s` class, restricted to the ASCII whitespace characters
`[ \t\n\r\v\f]` that `re` matches on ASCII text. -/

/-- The regex class `\s` (ASCII part). -/
def isWs (c : Char) : Bool :=
  c = ' ' || c = '\t' || c = '\n' || c = '\r' || c = '\x0b' || c = '\x0c'

/-- The regex class `[^\s]`. -/
def isNonWs (c : Char) : Bool := !(isWs c)

/-- The regex class `[a-zA-Z0-9]`. -/
def isAlnum (c : Char) : Bool :=
  ('a' ≤ c && c ≤ 'z') || ('A' ≤ c && c ≤ 'Z') || ('0' ≤ c && c ≤ '9')

/-- The regex class `[a-zA-Z0-9_-]` (the "value" class of the key/token
patterns). -/
def isValChar (c : Char) : Bool := isAlnum c || c = '_' || c = '-'

/-- The regex class `["']`. -/
def isQuote (c : Char) : Bool := c = '"' || c = '\''

/-- The regex class `[=:]`. -/
def isSep (c : Char) : Bool := c = '=' || c = ':'

/-- The regex class `[_-]`. -/
def isUscMinus (c : Char) : Bool := c = '_' || c = '-'

/-! ## A small regex matcher

Each of the six `SENSITIVE_PATTERNS` of `SensitiveDataFilter` is a plain
sequence of the following atoms.  In every pattern the character class of a
`?`/`*` quantifier is disjoint from the set of characters that can start the
remainder of the pattern, so Python's backtracking greedy matching coincides
with the deterministic greedy matching implemented here (the quantified atom
consumes a character exactly when its class matches it). -/

inductive Atom where
  /-- a literal, stored lower-case, matched case-insensitively -/
  | lit : List Char → Atom
  /-- exactly one character of the class -/
  | one : (Char → Bool) → Atom
  /-- `?`: at most one character of the class -/
  | opt : (Char → Bool) → Atom
  /-- `*`: any number of characters of the class -/
  | star : (Char → Bool) → Atom
  /-- `{k,}`: at least `k` characters of the class -/
  | atLeast : (Char → Bool) → Nat → Atom

/-- Result of feeding one character to the atom list: the match fails, the
character is consumed (leaving a residual atom list), or the atoms were
already exhausted before the character (the match finished just before it). -/
inductive Step where
  | fail : Step
  | consumed : List Atom → Step
  | finished : Step

/-- Feed a single character to an atom list. -/
def stepChar : List Atom → Char → Step
  | [], _ => .finished
  | .lit [] :: as, c => stepChar as c
  | .lit (l :: ls) :: as, c => if c.toLower = l then .consumed (.lit ls :: as) else .fail
  | .one cl :: as, c => if cl c then .consumed as else .fail
  | .opt cl :: as, c => if cl c then .consumed as else stepChar as c
  | .star cl :: as, c => if cl c then .consumed (.star cl :: as) else stepChar as c
  | .atLeast cl 0 :: as, c => if cl c then .consumed (.atLeast cl 0 :: as) else stepChar as c
  | .atLeast cl (k + 1) :: as, c =>
      if cl c then .consumed (.atLeast cl k :: as) else .fail

/-- Can the residual atom list match the empty string (accept at end of
input)? -/
def nullableAtom : Atom → Bool
  | .lit l => l.isEmpty
  | .one _ => false
  | .opt _ => true
  | .star _ => true
  | .atLeast _ k => k = 0

def nullable : List Atom → Bool
  | [] => true
  | a :: as => nullableAtom a && nullable as

/-- Result of running an atom list over a (finite) input: definitive failure,
a complete match with the given remaining input, or input exhausted with a
residual atom list. -/
inductive PR where
  | fail : PR
  | done : List Char → PR
  | more : List Atom → PR

def PR.isFail : PR → Bool
  | .fail => true
  | _ => false

/-- Run an atom list over an input, character by character. -/
def runP : List Atom → List Char → PR
  | as, [] => .more as
  | as, c :: s =>
    match stepChar as c with
    | .fail => .fail
    | .finished => .done (c :: s)
    | .consumed as' => runP as' s

/-- Match the pattern against a prefix of `s` (anchored at the start, greedy,
mirroring `re` matching at one position).  Returns the remaining input after
the match, or `none` when the pattern does not match at this position. -/
def run' (as : List Atom) (s : List Char) : Option (List Char) :=
  match runP as s with
  | .fail => none
  | .done r => some r
  | .more as' => if nullable as' then some [] else none

/-- Does the pattern match at some position of `s` (Python `re.search`)? -/
def hasMatch (pat : List Atom) : List Char → Bool
  | [] => (run' pat []).isSome
  | x :: s => (run' pat (x :: s)).isSome || hasMatch pat s

/-! ## The six `SENSITIVE_PATTERNS` of `SensitiveDataFilter` -/

/-- `PHIDATA_API_KEY[=:]\s*[^\s]+` (matched with `re.IGNORECASE`). -/
def pat1 : List Atom :=
  [.lit (lstr "phidata_api_key"), .one isSep, .star isWs, .atLeast isNonWs 1]

/-- `GROQ_API_KEY[=:]\s*[^\s]+` -/
def pat2 : List Atom :=
  [.lit (lstr "groq_api_key"), .one isSep, .star isWs, .atLeast isNonWs 1]

/-- `OPENAI_API_KEY[=:]\s*[^\s]+` -/
def pat3 : List Atom :=
  [.lit (lstr "openai_api_key"), .one isSep, .star isWs, .atLeast isNonWs 1]

/-- `api[_-]?key["']?\s*[=:]\s*["']?[a-zA-Z0-9_-]{20,}` -/
def pat4 : List Atom :=
  [.lit (lstr "api"), .opt isUscMinus, .lit (lstr "key"), .opt isQuote,
   .star isWs, .one isSep, .star isWs, .opt isQuote, .atLeast isValChar 20]

/-- `token["']?\s*[=:]\s*["']?[a-zA-Z0-9_-]{20,}` -/
def pat5 : List Atom :=
  [.lit (lstr "token"), .opt isQuote,
   .star isWs, .one isSep, .star isWs, .opt isQuote, .atLeast isValChar 20]

/-- `sk-[a-zA-Z0-9]{20,}` (OpenAI key pattern) -/
def pat6 : List Atom :=
  [.lit (lstr "sk-"), .atLeast isAlnum 20]

/-- The `SENSITIVE_PATTERNS` list, in source order. -/
def SENSITIVE_PATTERNS : List (List Atom) := [pat1, pat2, pat3, pat4, pat5, pat6]

/-- The replacement marker `'[REDACTED_API_KEY]'`. -/
def markerL : List Char := lstr "[REDACTED_API_KEY]"

/-! ## `re.sub`

`substF` scans left to right; at each position it tries the pattern, replaces
a (necessarily non-empty, see `run'_litHead` below) match with the marker and
continues after it, otherwise keeps the character.  The `Nat` fuel only makes
the recursion structural; `subst` supplies enough fuel (`substF_fuel`), and
`subst_cons` gives the natural unfolding. -/

def substF (pat : List Atom) : Nat → List Char → List Char
  | _, [] => []
  | 0, x :: s => x :: s
  | f + 1, x :: s =>
    match run' pat (x :: s) with
    | some r =>
        if r.length < s.length + 1 then markerL ++ substF pat f r
        else x :: substF pat f s
    | none => x :: substF pat f s

/-- `re.sub(pat, '[REDACTED_API_KEY]', s)`. -/
def subst (pat : List Atom) (s : List Char) : List Char :=
  substF pat (s.length + 1) s

/-- `SensitiveDataFilter._sanitize_text`: apply the six substitutions in
order. -/
def sanitize_text (s : List Char) : List Char :=
  SENSITIVE_PATTERNS.foldl (fun t p => subst p t) s

/-! ## Basic lemmas about the matcher -/

/-- Running over `u ++ v` first runs over `u`; a verdict reached inside `u`
stands, otherwise the run continues over `v` from the residual state. -/
theorem runP_append (as : List Atom) (u v : List Char) :
    runP as (u ++ v) =
      match runP as u with
      | .fail => .fail
      | .done r => .done (r ++ v)
      | .more as' => runP as' v := by
  induction u generalizing as with
  | nil => simp [runP]
  | cons c u ih =>
    simp only [List.cons_append, runP]
    cases stepChar as c with
    | fail => rfl
    | finished => rfl
    | consumed as' => exact ih as'

theorem runP_fail_append {as : List Atom} {u : List Char} (h : runP as u = .fail)
    (v : List Char) : runP as (u ++ v) = .fail := by
  rw [runP_append, h]

/-- A completed match leaves a suffix of the input. -/
theorem runP_done_suffix {as : List Atom} {s r : List Char}
    (h : runP as s = .done r) : r <:+ s := by
  induction s generalizing as with
  | nil => exact PR.noConfusion h
  | cons c s ih =>
    rw [runP] at h
    split at h
    · exact PR.noConfusion h
    · cases h; exact List.suffix_rfl
    · exact (ih h).trans (List.suffix_cons c s)

theorem run'_suffix {as : List Atom} {s r : List Char}
    (h : run' as s = some r) : r <:+ s := by
  rw [run'] at h
  split at h
  · exact Option.noConfusion h
  · rename_i r' hr
    cases h
    exact runP_done_suffix hr
  · split at h
    · cases h; exact List.nil_suffix
    · exact Option.noConfusion h

theorem run'_cons_fail {as : List Atom} {x : Char} (h : stepChar as x = .fail)
    (t : List Char) : run' as (x :: t) = none := by
  simp [run', runP, h]

theorem run'_cons_finished {as : List Atom} {x : Char}
    (h : stepChar as x = .finished) (t : List Char) :
    run' as (x :: t) = some (x :: t) := by
  simp [run', runP, h]

theorem run'_cons_consumed {as as' : List Atom} {x : Char}
    (h : stepChar as x = .consumed as') (t : List Char) :
    run' as (x :: t) = run' as' t := by
  simp only [run', runP, h]

/-- From a nullable state the run never fails. -/
theorem nullable_step (as : List Atom) (c : Char) (h : nullable as = true) :
    stepChar as c = .finished ∨
      ∃ as', stepChar as c = .consumed as' ∧ nullable as' = true := by
  induction as with
  | nil => exact Or.inl rfl
  | cons a as ih =>
    rw [nullable, Bool.and_eq_true] at h
    obtain ⟨ha, has⟩ := h
    cases a with
    | lit l =>
      cases l with
      | nil => simpa [stepChar] using ih has
      | cons c ls => simp [nullableAtom] at ha
    | one cl => simp [nullableAtom] at ha
    | opt cl =>
      by_cases hc : cl c
      · exact Or.inr ⟨as, by simp [stepChar, hc], has⟩
      · simpa [stepChar, hc] using ih has
    | star cl =>
      by_cases hc : cl c
      · exact Or.inr ⟨.star cl :: as, by simp [stepChar, hc], by
          rw [nullable]; simpa [nullableAtom] using has⟩
      · simpa [stepChar, hc] using ih has
    | atLeast cl k =>
      have hk : k = 0 := by simpa [nullableAtom] using ha
      subst hk
      by_cases hc : cl c
      · exact Or.inr ⟨.atLeast cl 0 :: as, by simp [stepChar, hc], by
          rw [nullable]; simpa [nullableAtom] using has⟩
      · simpa [stepChar, hc] using ih has

/-- A nullable state matches every input. -/
theorem nullable_run' {as : List Atom} (h : nullable as = true) (s : List Char) :
    run' as s ≠ none := by
  induction s generalizing as with
  | nil => simp [run', runP, h]
  | cons c s ih =>
    rcases nullable_step as c h with hf | ⟨as', hc, hn⟩
    · rw [run'_cons_finished hf]; simp
    · rw [run'_cons_consumed hc]; exact ih hn

/-! ## Unfolding equations for `subst` -/

theorem substF_fuel (pat : List Atom) :
    ∀ f f' s, s.length < f → s.length < f' →
      substF pat f s = substF pat f' s := by
  intro f
  induction f with
  | zero => intro f' s h; omega
  | succ f ih =>
    intro f' s hf hf'
    cases s with
    | nil => cases f' with | zero => omega | succ f' => rfl
    | cons x s =>
      cases f' with
      | zero => simp only [List.length_cons] at hf'; omega
      | succ f' =>
        simp only [List.length_cons] at hf hf'
        simp only [substF]
        cases hr : run' pat (x :: s) with
        | none =>
          show x :: substF pat f s = x :: substF pat f' s
          rw [ih f' s (by omega) (by omega)]
        | some r =>
          show (if r.length < s.length + 1 then markerL ++ substF pat f r
                else x :: substF pat f s) =
              (if r.length < s.length + 1 then markerL ++ substF pat f' r
                else x :: substF pat f' s)
          by_cases hlen : r.length < s.length + 1
          · rw [if_pos hlen, if_pos hlen, ih f' r (by omega) (by omega)]
          · rw [if_neg hlen, if_neg hlen, ih f' s (by omega) (by omega)]

@[simp] theorem subst_nil (pat : List Atom) : subst pat [] = [] := rfl

theorem subst_cons (pat : List Atom) (x : Char) (s : List Char) :
    subst pat (x :: s) =
      match run' pat (x :: s) with
      | some r =>
          if r.length < s.length + 1 then markerL ++ subst pat r
          else x :: subst pat s
      | none => x :: subst pat s := by
  show substF pat (s.length + 1 + 1) (x :: s) = _
  simp only [substF]
  cases hr : run' pat (x :: s) with
  | none => rfl
  | some r =>
    show (if r.length < s.length + 1 then markerL ++ substF pat (s.length + 1) r
          else x :: substF pat (s.length + 1) s) =
        (if r.length < s.length + 1 then markerL ++ subst pat r
          else x :: subst pat s)
    by_cases hlen : r.length < s.length + 1
    · rw [if_pos hlen, if_pos hlen,
        substF_fuel pat (s.length + 1) (r.length + 1) r (by omega) (by omega)]
      rfl
    · rw [if_neg hlen, if_neg hlen]
      rfl

/-- When the pattern matches nowhere, substitution is the identity. -/
theorem subst_id {pat : List Atom} :
    ∀ {s : List Char}, hasMatch pat s = false → subst pat s = s := by
  suffices h : ∀ n (s : List Char), s.length ≤ n →
      hasMatch pat s = false → subst pat s = s by
    intro s hm; exact h s.length s le_rfl hm
  intro n
  induction n with
  | zero =>
    intro s hs hm
    rw [List.length_eq_zero.mp (Nat.le_zero.mp hs)]
    rfl
  | succ n ih =>
    intro s hs hm
    cases s with
    | nil => rfl
    | cons x s =>
      have hhead : run' pat (x :: s) = none := by
        cases hr : run' pat (x :: s) with
        | none => rfl
        | some r => rw [hasMatch, hr] at hm; simp at hm
      have htail : hasMatch pat s = false := by
        rw [hasMatch, hhead] at hm; simpa using hm
      have hs' : s.length ≤ n := by
        simp only [List.length_cons] at hs; omega
      rw [subst_cons, hhead, ih s hs' htail]

/-! ## Reachable matcher states

`StateOf q as` says that `as` is a state the matcher for the pattern `q` can
be in after consuming some characters: a partially consumed head atom followed
by the exact remaining atoms of `q`. -/

/-- `a'` is a partially consumed version of the atom `a`. -/
def atomLe : Atom → Atom → Prop := fun a' a =>
  match a', a with
  | .lit ls, .lit l => ls <:+ l
  | .atLeast c' k', .atLeast c k => c' = c ∧ k' ≤ k
  | x, y => x = y

theorem atomLe_refl (a : Atom) : atomLe a a := by
  cases a with
  | lit l => exact List.suffix_rfl
  | atLeast c k => exact ⟨rfl, le_rfl⟩
  | one c => rfl
  | opt c => rfl
  | star c => rfl

def StateOf (q as : List Atom) : Prop :=
  as = [] ∨ ∃ a a' tl, as = a' :: tl ∧ atomLe a' a ∧ a :: tl <:+ q

theorem StateOf.self (q : List Atom) : StateOf q q := by
  cases q with
  | nil => exact Or.inl rfl
  | cons a tl => exact Or.inr ⟨a, a, tl, rfl, atomLe_refl a, List.suffix_rfl⟩

theorem StateOf.tail {q : List Atom} {a : Atom} {tl : List Atom}
    (h : a :: tl <:+ q) : StateOf q tl := by
  cases tl with
  | nil => exact Or.inl rfl
  | cons b tl' =>
    refine Or.inr ⟨b, b, tl', rfl, atomLe_refl b, ?_⟩
    obtain ⟨w, hw⟩ := h
    exact ⟨w ++ [a], by simpa using hw⟩

/-- The state invariant is preserved by consuming a character. -/
theorem stepClosure {q : List Atom} :
    ∀ {as : List Atom}, StateOf q as → ∀ {c : Char} {as' : List Atom},
      stepChar as c = .consumed as' → StateOf q as' := by
  intro as
  induction as with
  | nil =>
    intro _ c as' h
    exact Step.noConfusion h
  | cons a tl ih =>
    intro hst c as' h
    rcases hst with hnil | ⟨b, b', tl', heq, hle, hsf⟩
    · exact List.noConfusion hnil
    · injection heq with hb htl
      subst hb htl
      cases a with
      | lit ls =>
        obtain ⟨L, hbL, hsfx⟩ : ∃ L, b = .lit L ∧ ls <:+ L := by
          cases b with
          | lit L => exact ⟨L, rfl, hle⟩
          | one cl => exact Atom.noConfusion hle
          | opt cl => exact Atom.noConfusion hle
          | star cl => exact Atom.noConfusion hle
          | atLeast cl k => exact Atom.noConfusion hle
        subst hbL
        cases ls with
        | nil =>
          rw [stepChar] at h
          exact ih (StateOf.tail hsf) h
        | cons l ls' =>
          rw [stepChar] at h
          split at h
          · cases h
            exact Or.inr ⟨.lit L, .lit ls', tl, rfl,
              (List.suffix_cons l ls').trans hsfx, hsf⟩
          · exact Step.noConfusion h
      | one cl =>
        have hb : b = .one cl := by
          cases b with
          | one cl2 => cases hle; rfl
          | lit L => exact Atom.noConfusion hle
          | opt cl2 => exact Atom.noConfusion hle
          | star cl2 => exact Atom.noConfusion hle
          | atLeast cl2 k => exact Atom.noConfusion hle
        subst hb
        rw [stepChar] at h
        split at h
        · cases h; exact StateOf.tail hsf
        · exact Step.noConfusion h
      | opt cl =>
        have hb : b = .opt cl := by
          cases b with
          | opt cl2 => cases hle; rfl
          | lit L => exact Atom.noConfusion hle
          | one cl2 => exact Atom.noConfusion hle
          | star cl2 => exact Atom.noConfusion hle
          | atLeast cl2 k => exact Atom.noConfusion hle
        subst hb
        rw [stepChar] at h
        split at h
        · cases h; exact StateOf.tail hsf
        · exact ih (StateOf.tail hsf) h
      | star cl =>
        have hb : b = .star cl := by
          cases b with
          | star cl2 => cases hle; rfl
          | lit L => exact Atom.noConfusion hle
          | one cl2 => exact Atom.noConfusion hle
          | opt cl2 => exact Atom.noConfusion hle
          | atLeast cl2 k => exact Atom.noConfusion hle
        subst hb
        rw [stepChar] at h
        split at h
        · cases h
          exact Or.inr ⟨.star cl, .star cl, tl, rfl, rfl, hsf⟩
        · exact ih (StateOf.tail hsf) h
      | atLeast cl k =>
        obtain ⟨K, hbK, hkK⟩ : ∃ K, b = .atLeast cl K ∧ k ≤ K := by
          cases b with
          | atLeast cl2 K =>
            obtain ⟨hc, hk⟩ := hle
            subst hc; exact ⟨K, rfl, hk⟩
          | lit L => exact Atom.noConfusion hle
          | one cl2 => exact Atom.noConfusion hle
          | opt cl2 => exact Atom.noConfusion hle
          | star cl2 => exact Atom.noConfusion hle
        subst hbK
        cases k with
        | zero =>
          rw [stepChar] at h
          split at h
          · cases h
            exact Or.inr ⟨.atLeast cl K, .atLeast cl 0, tl, rfl, ⟨rfl, hkK⟩, hsf⟩
          · exact ih (StateOf.tail hsf) h
        | succ k' =>
          rw [stepChar] at h
          split at h
          · cases h
            exact Or.inr ⟨.atLeast cl K, .atLeast cl k', tl, rfl,
              ⟨rfl, by omega⟩, hsf⟩
          · exact Step.noConfusion h

/-! ## `hasMatch` helper lemmas -/

theorem run'_eq_none_of_fail {as : List Atom} {s : List Char}
    (h : runP as s = .fail) : run' as s = none := by
  rw [run', h]

theorem hasMatch_head {pat : List Atom} {x : Char} {s : List Char}
    (h : hasMatch pat (x :: s) = false) : run' pat (x :: s) = none := by
  rw [hasMatch, Bool.or_eq_false_iff] at h
  cases hr : run' pat (x :: s) with
  | none => rfl
  | some r => rw [hr] at h; exact absurd h.1 (by simp)

theorem hasMatch_tail {pat : List Atom} {x : Char} {s : List Char}
    (h : hasMatch pat (x :: s) = false) : hasMatch pat s = false := by
  rw [hasMatch, Bool.or_eq_false_iff] at h
  exact h.2

/-- `hasMatch` is monotone along suffixes. -/
theorem hasMatch_suffix {pat : List Atom} :
    ∀ {s s' : List Char}, s' <:+ s → hasMatch pat s = false →
      hasMatch pat s' = false := by
  intro s
  induction s with
  | nil =>
    intro s' hsf h
    rw [List.suffix_nil.mp hsf]
    exact h
  | cons x s ih =>
    intro s' hsf h
    rcases List.suffix_cons_iff.mp hsf with rfl | hsf'
    · exact h
    · exact ih hsf' (hasMatch_tail h)

/-- If every non-empty suffix of `a` makes the matcher fail outright (before
reaching the end of `a`), then appending `a` in front cannot create a match. -/
theorem hasMatch_append_fail {pat : List Atom} {a b : List Char}
    (hA : ∀ a', a' <:+ a → a' ≠ [] → runP pat a' = .fail)
    (hB : hasMatch pat b = false) : hasMatch pat (a ++ b) = false := by
  induction a with
  | nil => exact hB
  | cons c a ih =>
    rw [List.cons_append, hasMatch, Bool.or_eq_false_iff]
    constructor
    · have hf : runP pat (c :: a) = .fail :=
        hA (c :: a) List.suffix_rfl (by simp)
      show (run' pat ((c :: a) ++ b)).isSome = false
      rw [run'_eq_none_of_fail (runP_fail_append hf b)]
      rfl
    · exact ih fun a' hsf hne => hA a' (hsf.trans (List.suffix_cons c a)) hne

/-! ## The main substitution lemmas

`run'_subst_none`: if the pattern `q` does not match at the start of `s`,
it does not match at the start of `subst p s` either — provided (`hp`) every
`p`-match starts with a non-whitespace character and is non-empty, and (`hq`)
every reachable matcher state of `q` either fails outright on the marker or
succeeds on every input starting with a non-whitespace character. -/

theorem run'_subst_none {p q : List Atom}
    (hp : ∀ s r, run' p s = some r →
      ∃ x s₂, s = x :: s₂ ∧ isNonWs x = true ∧ r.length < s.length)
    (hq : ∀ as, StateOf q as → runP as markerL = .fail ∨
      ∀ x s', isNonWs x = true → run' as (x :: s') ≠ none) :
    ∀ n (s : List Char), s.length ≤ n → ∀ as, StateOf q as →
      run' as s = none → run' as (subst p s) = none := by
  intro n
  induction n with
  | zero =>
    intro s hs as hst hnone
    obtain rfl := List.length_eq_zero.mp (Nat.le_zero.mp hs)
    exact hnone
  | succ n ih =>
    intro s hs as hst hnone
    cases s with
    | nil => exact hnone
    | cons x s =>
      have hs' : s.length ≤ n := by simp only [List.length_cons] at hs; omega
      rw [subst_cons]
      cases hr : run' p (x :: s) with
      | none =>
        show run' as (x :: subst p s) = none
        cases hsc : stepChar as x with
        | fail => exact run'_cons_fail hsc _
        | finished =>
          rw [run'_cons_finished hsc] at hnone
          exact Option.noConfusion hnone
        | consumed as' =>
          rw [run'_cons_consumed hsc] at hnone ⊢
          exact ih s hs' as' (stepClosure hst hsc) hnone
      | some r =>
        obtain ⟨x', s₂, heq, hnws, hlen⟩ := hp _ _ hr
        injection heq with hx hs₂
        subst hx hs₂
        have hlen' : r.length < s.length + 1 := by
          simpa using hlen
        show run' as (if r.length < s.length + 1 then markerL ++ subst p r
            else x :: subst p s) = none
        rw [if_pos hlen']
        rcases hq as hst with hfail | hb2
        · exact run'_eq_none_of_fail (runP_fail_append hfail _)
        · exact absurd hnone (hb2 x s hnws)

/-- The pattern `q` has no match anywhere in `subst p s`, when either `q = p`
(its own substitution removes all its matches) or `q` had no match in `s`
(substituting `p` does not create `q`-matches). -/
theorem hasMatch_subst_false {p q : List Atom}
    (hp : ∀ s r, run' p s = some r →
      ∃ x s₂, s = x :: s₂ ∧ isNonWs x = true ∧ r.length < s.length)
    (hq : ∀ as, StateOf q as → runP as markerL = .fail ∨
      ∀ x s', isNonWs x = true → run' as (x :: s') ≠ none)
    (hq0 : run' q [] = none)
    (hmk : ∀ m', m' <:+ markerL → m' ≠ [] → runP q m' = .fail) :
    ∀ n (s : List Char), s.length ≤ n → (p = q ∨ hasMatch q s = false) →
      hasMatch q (subst p s) = false := by
  intro n
  induction n with
  | zero =>
    intro s hs _
    obtain rfl := List.length_eq_zero.mp (Nat.le_zero.mp hs)
    show hasMatch q (subst p []) = false
    rw [subst_nil, hasMatch, hq0]
    rfl
  | succ n ih =>
    intro s hs hyp
    cases s with
    | nil =>
      show hasMatch q (subst p []) = false
      rw [subst_nil, hasMatch, hq0]
      rfl
    | cons x s =>
      have hs' : s.length ≤ n := by simp only [List.length_cons] at hs; omega
      rw [subst_cons]
      cases hr : run' p (x :: s) with
      | none =>
        show hasMatch q (x :: subst p s) = false
        have hhead : run' q (x :: s) = none := by
          rcases hyp with rfl | hnm
          · exact hr
          · exact hasMatch_head hnm
        have htail : p = q ∨ hasMatch q s = false := by
          rcases hyp with rfl | hnm
          · exact Or.inl rfl
          · exact Or.inr (hasMatch_tail hnm)
        have hhead2 : run' q (x :: subst p s) = none := by
          cases hsc : stepChar q x with
          | fail => exact run'_cons_fail hsc _
          | finished =>
            rw [run'_cons_finished hsc] at hhead
            exact Option.noConfusion hhead
          | consumed as' =>
            rw [run'_cons_consumed hsc] at hhead ⊢
            exact run'_subst_none hp hq s.length s le_rfl as'
              (stepClosure (StateOf.self q) hsc) hhead
        rw [hasMatch, Bool.or_eq_false_iff]
        exact ⟨by rw [hhead2]; rfl, ih s hs' htail⟩
      | some r =>
        obtain ⟨x', s₂, heq, hnws, hlen⟩ := hp _ _ hr
        injection heq with hx hs₂
        subst hx hs₂
        have hlen' : r.length < s.length + 1 := by simpa using hlen
        show hasMatch q (if r.length < s.length + 1 then markerL ++ subst p r
            else x :: subst p s) = false
        rw [if_pos hlen']
        apply hasMatch_append_fail hmk
        apply ih r (by omega)
        rcases hyp with rfl | hnm
        · exact Or.inl rfl
        · exact Or.inr (hasMatch_suffix (run'_suffix hr) hnm)

/-! ## Discharging the hypotheses of the substitution lemmas

First the `hp` side: every match of one of the six patterns starts with a
(non-whitespace) letter and consumes at least one character. -/

theorem toLower_eq_self_of_isWs {x : Char} (h : isWs x = true) :
    x.toLower = x := by
  rw [isWs] at h
  simp only [Bool.or_eq_true, decide_eq_true_eq] at h
  rcases h with ((((h | h) | h) | h) | h) | h <;> subst h <;> decide

theorem nonWs_of_toLower {x c : Char} (hx : x.toLower = c)
    (hc : isWs c = false) : isNonWs x = true := by
  have hw : isWs x = false := by
    cases hw : isWs x
    · rfl
    · rw [toLower_eq_self_of_isWs hw] at hx
      subst hx
      rw [hw] at hc
      exact Bool.noConfusion hc
  rw [isNonWs, hw]
  rfl

/-- A match of a pattern with a non-empty leading literal starts with a
character folding to the first literal character and is non-empty. -/
theorem run'_litHead {c : Char} {L : List Char} {tl : List Atom} {s r : List Char}
    (h : run' (.lit (c :: L) :: tl) s = some r) :
    ∃ x s₂, s = x :: s₂ ∧ x.toLower = c ∧ r.length < s.length := by
  cases s with
  | nil =>
    simp [run', runP, nullable, nullableAtom] at h
  | cons x s₂ =>
    by_cases hc : x.toLower = c
    · have hsc : stepChar (.lit (c :: L) :: tl) x = .consumed (.lit L :: tl) := by
        rw [stepChar, if_pos hc]
      rw [run'_cons_consumed hsc] at h
      have hsfx := run'_suffix h
      have hlen := hsfx.length_le
      exact ⟨x, s₂, rfl, hc, by simp only [List.length_cons]; omega⟩
    · have hsc : stepChar (.lit (c :: L) :: tl) x = .fail := by
        rw [stepChar, if_neg hc]
      rw [run'_cons_fail hsc] at h
      exact Option.noConfusion h

/-- The `hp` hypothesis, generically for a pattern whose leading literal
starts with a non-whitespace character. -/
theorem hpOf (c : Char) (L : List Char) (tl : List Atom) (hc : isWs c = false) :
    ∀ s r, run' (.lit (c :: L) :: tl) s = some r →
      ∃ x s₂, s = x :: s₂ ∧ isNonWs x = true ∧ r.length < s.length := by
  intro s r h
  obtain ⟨x, s₂, rfl, hx, hlen⟩ := run'_litHead h
  exact ⟨x, s₂, rfl, nonWs_of_toLower hx hc, hlen⟩

/-! Now the `hq` side: every reachable state of each pattern either fails
outright on the marker (whose first character is `'['`) or accepts every
input starting with a non-whitespace character. -/

theorem isFail_eq {pr : PR} (h : pr.isFail = true) : pr = .fail := by
  cases pr with
  | fail => rfl
  | done r => exact Bool.noConfusion h
  | more as => exact Bool.noConfusion h

theorem markerL_cons : markerL = '[' :: lstr "REDACTED_API_KEY]" := rfl

/-- A state whose head literal still has characters to match fails on the
marker when `'['` does not occur in the original literal. -/
theorem runP_marker_litHead {c : Char} {ls' L : List Char} {tl : List Atom}
    (hsfx : (c :: ls') <:+ L) (hL : '[' ∉ L) :
    runP (.lit (c :: ls') :: tl) markerL = .fail := by
  have hc : c ∈ L := hsfx.subset (by simp)
  have hcne : ¬ (('[' : Char).toLower = c) := by
    have hlow : ('[' : Char).toLower = '[' := by decide
    rw [hlow]
    intro hcc
    rw [← hcc] at hc
    exact hL hc
  rw [markerL_cons, runP]
  have hsc : stepChar (.lit (c :: ls') :: tl) '[' = .fail := by
    rw [stepChar, if_neg hcne]
  rw [hsc]

/-- A state inside a mandatory class run over a class not containing `'['`
fails on the marker. -/
theorem runP_marker_atLeastPos {cl : Char → Bool} {k : Nat} {tl : List Atom}
    (hcl : cl '[' = false) :
    runP (.atLeast cl (k + 1) :: tl) markerL = .fail := by
  rw [markerL_cons, runP]
  have hsc : stepChar (.atLeast cl (k + 1) :: tl) '[' = .fail := by
    rw [stepChar, if_neg (by rw [hcl]; exact Bool.noConfusion)]
  rw [hsc]

/-- From the trailing `\s*[^\s]+` state, any input starting with a
non-whitespace character matches. -/
theorem accepts_ws_nonws : ∀ (x : Char) (s' : List Char), isNonWs x = true →
    run' [.star isWs, .atLeast isNonWs 1] (x :: s') ≠ none := by
  intro x s' hx
  have hw : isWs x = false := by
    cases hw : isWs x
    · rfl
    · rw [isNonWs, hw] at hx
      exact Bool.noConfusion hx
  have hsc : stepChar [.star isWs, .atLeast isNonWs 1] x =
      .consumed [.atLeast isNonWs 0] := by
    simp [stepChar, hw, hx]
  rw [run'_cons_consumed hsc]
  exact nullable_run' (show nullable [.atLeast isNonWs 0] = true from rfl) s'

/-- From the trailing `[^\s]+` state, any input starting with a
non-whitespace character matches. -/
theorem accepts_nonws : ∀ (x : Char) (s' : List Char), isNonWs x = true →
    run' [.atLeast isNonWs 1] (x :: s') ≠ none := by
  intro x s' hx
  have hsc : stepChar [.atLeast isNonWs 1] x = .consumed [.atLeast isNonWs 0] := by
    simp [stepChar, hx]
  rw [run'_cons_consumed hsc]
  exact nullable_run' (show nullable [.atLeast isNonWs 0] = true from rfl) s'

/-! Inversion lemmas for `atomLe`. -/

theorem atomLe_lit {a' : Atom} {L : List Char} (h : atomLe a' (.lit L)) :
    ∃ ls, a' = .lit ls ∧ ls <:+ L := by
  cases a' with
  | lit ls => exact ⟨ls, rfl, h⟩
  | one cl => exact Atom.noConfusion h
  | opt cl => exact Atom.noConfusion h
  | star cl => exact Atom.noConfusion h
  | atLeast cl k => exact Atom.noConfusion h

theorem atomLe_one {a' : Atom} {cl : Char → Bool} (h : atomLe a' (.one cl)) :
    a' = .one cl := by
  cases a' with
  | one cl2 => exact h
  | lit ls => exact Atom.noConfusion h
  | opt cl2 => exact Atom.noConfusion h
  | star cl2 => exact Atom.noConfusion h
  | atLeast cl2 k => exact Atom.noConfusion h

theorem atomLe_opt {a' : Atom} {cl : Char → Bool} (h : atomLe a' (.opt cl)) :
    a' = .opt cl := by
  cases a' with
  | opt cl2 => exact h
  | lit ls => exact Atom.noConfusion h
  | one cl2 => exact Atom.noConfusion h
  | star cl2 => exact Atom.noConfusion h
  | atLeast cl2 k => exact Atom.noConfusion h

theorem atomLe_star {a' : Atom} {cl : Char → Bool} (h : atomLe a' (.star cl)) :
    a' = .star cl := by
  cases a' with
  | star cl2 => exact h
  | lit ls => exact Atom.noConfusion h
  | one cl2 => exact Atom.noConfusion h
  | opt cl2 => exact Atom.noConfusion h
  | atLeast cl2 k => exact Atom.noConfusion h

theorem atomLe_atLeast {a' : Atom} {cl : Char → Bool} {k : Nat}
    (h : atomLe a' (.atLeast cl k)) :
    ∃ k', a' = .atLeast cl k' ∧ k' ≤ k := by
  cases a' with
  | atLeast cl2 k2 =>
    obtain ⟨hc, hk⟩ := h
    subst hc
    exact ⟨k2, rfl, hk⟩
  | lit ls => exact Atom.noConfusion h
  | one cl2 => exact Atom.noConfusion h
  | opt cl2 => exact Atom.noConfusion h
  | star cl2 => exact Atom.noConfusion h

theorem suffix_cons_elim {a A : Atom} {tl rest : List Atom}
    (h : a :: tl <:+ A :: rest) : (a = A ∧ tl = rest) ∨ a :: tl <:+ rest := by
  rcases List.suffix_cons_iff.mp h with heq | h2
  · injection heq with h1 h2
    exact Or.inl ⟨h1, h2⟩
  · exact Or.inr h2

theorem suffix_cons_nil {a : Atom} {tl : List Atom}
    (h : a :: tl <:+ ([] : List Atom)) : False := by
  have := List.suffix_nil.mp h
  exact List.noConfusion this

/-! ## The state dichotomy for each sensitive pattern

Every reachable matcher state either fails outright on the marker (whose
first character `'['` belongs to none of the pattern's character classes and
literals, except `[^\s]`), or accepts every input that starts with a
non-whitespace character (the trailing `[^\s]+` states and the nullable
states). -/

theorem dichotomy_envKey {L : List Char} (hL : '[' ∉ L) :
    ∀ as, StateOf [.lit L, .one isSep, .star isWs, .atLeast isNonWs 1] as →
      runP as markerL = .fail ∨
      ∀ x s', isNonWs x = true → run' as (x :: s') ≠ none := by
  intro as hst
  rcases hst with rfl | ⟨a, a', tl, rfl, hle, hsf⟩
  · exact Or.inr fun x s' _ =>
      nullable_run' (show nullable [] = true from rfl) (x :: s')
  rcases suffix_cons_elim hsf with ⟨rfl, rfl⟩ | hsf
  · obtain ⟨ls, rfl, hsfx⟩ := atomLe_lit hle
    cases ls with
    | nil => exact Or.inl (isFail_eq rfl)
    | cons c ls' => exact Or.inl (runP_marker_litHead hsfx hL)
  rcases suffix_cons_elim hsf with ⟨rfl, rfl⟩ | hsf
  · obtain rfl := atomLe_one hle
    exact Or.inl (isFail_eq rfl)
  rcases suffix_cons_elim hsf with ⟨rfl, rfl⟩ | hsf
  · obtain rfl := atomLe_star hle
    exact Or.inr accepts_ws_nonws
  rcases suffix_cons_elim hsf with ⟨rfl, rfl⟩ | hsf
  · obtain ⟨k', rfl, hk⟩ := atomLe_atLeast hle
    cases k' with
    | zero =>
      exact Or.inr fun x s' _ =>
        nullable_run' (show nullable [.atLeast isNonWs 0] = true from rfl) (x :: s')
    | succ k'' =>
      obtain rfl : k'' = 0 := by omega
      exact Or.inr accepts_nonws
  · exact (suffix_cons_nil hsf).elim

theorem dichotomy_pat4 :
    ∀ as, StateOf pat4 as →
      runP as markerL = .fail ∨
      ∀ x s', isNonWs x = true → run' as (x :: s') ≠ none := by
  intro as hst
  rcases hst with rfl | ⟨a, a', tl, rfl, hle, hsf⟩
  · exact Or.inr fun x s' _ =>
      nullable_run' (show nullable [] = true from rfl) (x :: s')
  rw [pat4] at hsf
  rcases suffix_cons_elim hsf with ⟨rfl, rfl⟩ | hsf
  · obtain ⟨ls, rfl, hsfx⟩ := atomLe_lit hle
    cases ls with
    | nil => exact Or.inl (isFail_eq rfl)
    | cons c ls' => exact Or.inl (runP_marker_litHead hsfx (by decide))
  rcases suffix_cons_elim hsf with ⟨rfl, rfl⟩ | hsf
  · obtain rfl := atomLe_opt hle
    exact Or.inl (isFail_eq rfl)
  rcases suffix_cons_elim hsf with ⟨rfl, rfl⟩ | hsf
  · obtain ⟨ls, rfl, hsfx⟩ := atomLe_lit hle
    cases ls with
    | nil => exact Or.inl (isFail_eq rfl)
    | cons c ls' => exact Or.inl (runP_marker_litHead hsfx (by decide))
  rcases suffix_cons_elim hsf with ⟨rfl, rfl⟩ | hsf
  · obtain rfl := atomLe_opt hle
    exact Or.inl (isFail_eq rfl)
  rcases suffix_cons_elim hsf with ⟨rfl, rfl⟩ | hsf
  · obtain rfl := atomLe_star hle
    exact Or.inl (isFail_eq rfl)
  rcases suffix_cons_elim hsf with ⟨rfl, rfl⟩ | hsf
  · obtain rfl := atomLe_one hle
    exact Or.inl (isFail_eq rfl)
  rcases suffix_cons_elim hsf with ⟨rfl, rfl⟩ | hsf
  · obtain rfl := atomLe_star hle
    exact Or.inl (isFail_eq rfl)
  rcases suffix_cons_elim hsf with ⟨rfl, rfl⟩ | hsf
  · obtain rfl := atomLe_opt hle
    exact Or.inl (isFail_eq rfl)
  rcases suffix_cons_elim hsf with ⟨rfl, rfl⟩ | hsf
  · obtain ⟨k', rfl, hk⟩ := atomLe_atLeast hle
    cases k' with
    | zero =>
      exact Or.inr fun x s' _ =>
        nullable_run' (show nullable [.atLeast isValChar 0] = true from rfl) (x :: s')
    | succ k'' => exact Or.inl (runP_marker_atLeastPos (by decide))
  · exact (suffix_cons_nil hsf).elim

theorem dichotomy_pat5 :
    ∀ as, StateOf pat5 as →
      runP as markerL = .fail ∨
      ∀ x s', isNonWs x = true → run' as (x :: s') ≠ none := by
  intro as hst
  rcases hst with rfl | ⟨a, a', tl, rfl, hle, hsf⟩
  · exact Or.inr fun x s' _ =>
      nullable_run' (show nullable [] = true from rfl) (x :: s')
  rw [pat5] at hsf
  rcases suffix_cons_elim hsf with ⟨rfl, rfl⟩ | hsf
  · obtain ⟨ls, rfl, hsfx⟩ := atomLe_lit hle
    cases ls with
    | nil => exact Or.inl (isFail_eq rfl)
    | cons c ls' => exact Or.inl (runP_marker_litHead hsfx (by decide))
  rcases suffix_cons_elim hsf with ⟨rfl, rfl⟩ | hsf
  · obtain rfl := atomLe_opt hle
    exact Or.inl (isFail_eq rfl)
  rcases suffix_cons_elim hsf with ⟨rfl, rfl⟩ | hsf
  · obtain rfl := atomLe_star hle
    exact Or.inl (isFail_eq rfl)
  rcases suffix_cons_elim hsf with ⟨rfl, rfl⟩ | hsf
  · obtain rfl := atomLe_one hle
    exact Or.inl (isFail_eq rfl)
  rcases suffix_cons_elim hsf with ⟨rfl, rfl⟩ | hsf
  · obtain rfl := atomLe_star hle
    exact Or.inl (isFail_eq rfl)
  rcases suffix_cons_elim hsf with ⟨rfl, rfl⟩ | hsf
  · obtain rfl := atomLe_opt hle
    exact Or.inl (isFail_eq rfl)
  rcases suffix_cons_elim hsf with ⟨rfl, rfl⟩ | hsf
  · obtain ⟨k', rfl, hk⟩ := atomLe_atLeast hle
    cases k' with
    | zero =>
      exact Or.inr fun x s' _ =>
        nullable_run' (show nullable [.atLeast isValChar 0] = true from rfl) (x :: s')
    | succ k'' => exact Or.inl (runP_marker_atLeastPos (by decide))
  · exact (suffix_cons_nil hsf).elim

theorem dichotomy_pat6 :
    ∀ as, StateOf pat6 as →
      runP as markerL = .fail ∨
      ∀ x s', isNonWs x = true → run' as (x :: s') ≠ none := by
  intro as hst
  rcases hst with rfl | ⟨a, a', tl, rfl, hle, hsf⟩
  · exact Or.inr fun x s' _ =>
      nullable_run' (show nullable [] = true from rfl) (x :: s')
  rw [pat6] at hsf
  rcases suffix_cons_elim hsf with ⟨rfl, rfl⟩ | hsf
  · obtain ⟨ls, rfl, hsfx⟩ := atomLe_lit hle
    cases ls with
    | nil => exact Or.inl (isFail_eq rfl)
    | cons c ls' => exact Or.inl (runP_marker_litHead hsfx (by decide))
  rcases suffix_cons_elim hsf with ⟨rfl, rfl⟩ | hsf
  · obtain ⟨k', rfl, hk⟩ := atomLe_atLeast hle
    cases k' with
    | zero =>
      exact Or.inr fun x s' _ =>
        nullable_run' (show nullable [.atLeast isAlnum 0] = true from rfl) (x :: s')
    | succ k'' => exact Or.inl (runP_marker_atLeastPos (by decide))
  · exact (suffix_cons_nil hsf).elim

/-! ## Per-pattern instances of the remaining hypotheses -/

theorem hp_pat1 : ∀ s r, run' pat1 s = some r →
    ∃ x s₂, s = x :: s₂ ∧ isNonWs x = true ∧ r.length < s.length := fun s r h =>
  hpOf 'p' (lstr "hidata_api_key")
    [.one isSep, .star isWs, .atLeast isNonWs 1] (by decide) s r h

theorem hp_pat2 : ∀ s r, run' pat2 s = some r →
    ∃ x s₂, s = x :: s₂ ∧ isNonWs x = true ∧ r.length < s.length := fun s r h =>
  hpOf 'g' (lstr "roq_api_key")
    [.one isSep, .star isWs, .atLeast isNonWs 1] (by decide) s r h

theorem hp_pat3 : ∀ s r, run' pat3 s = some r →
    ∃ x s₂, s = x :: s₂ ∧ isNonWs x = true ∧ r.length < s.length := fun s r h =>
  hpOf 'o' (lstr "penai_api_key")
    [.one isSep, .star isWs, .atLeast isNonWs 1] (by decide) s r h

theorem hp_pat4 : ∀ s r, run' pat4 s = some r →
    ∃ x s₂, s = x :: s₂ ∧ isNonWs x = true ∧ r.length < s.length := fun s r h =>
  hpOf 'a' (lstr "pi")
    [.opt isUscMinus, .lit (lstr "key"), .opt isQuote, .star isWs,
      .one isSep, .star isWs, .opt isQuote, .atLeast isValChar 20]
    (by decide) s r h

theorem hp_pat5 : ∀ s r, run' pat5 s = some r →
    ∃ x s₂, s = x :: s₂ ∧ isNonWs x = true ∧ r.length < s.length := fun s r h =>
  hpOf 't' (lstr "oken")
    [.opt isQuote, .star isWs, .one isSep, .star isWs, .opt isQuote,
      .atLeast isValChar 20]
    (by decide) s r h

theorem hp_pat6 : ∀ s r, run' pat6 s = some r →
    ∃ x s₂, s = x :: s₂ ∧ isNonWs x = true ∧ r.length < s.length := fun s r h =>
  hpOf 's' (lstr "k-")
    [.atLeast isAlnum 20] (by decide) s r h

theorem hmk_of_tails {q : List Atom}
    (h : ∀ m' ∈ markerL.tails, m' = [] ∨ (runP q m').isFail = true) :
    ∀ m', m' <:+ markerL → m' ≠ [] → runP q m' = .fail := by
  intro m' hsf hne
  rcases h m' ((List.mem_tails m' markerL).mpr hsf) with rfl | hf
  · exact absurd rfl hne
  · exact isFail_eq hf

theorem hmk_pat1 : ∀ m', m' <:+ markerL → m' ≠ [] → runP pat1 m' = .fail :=
  hmk_of_tails (by decide)

theorem hmk_pat2 : ∀ m', m' <:+ markerL → m' ≠ [] → runP pat2 m' = .fail :=
  hmk_of_tails (by decide)

theorem hmk_pat3 : ∀ m', m' <:+ markerL → m' ≠ [] → runP pat3 m' = .fail :=
  hmk_of_tails (by decide)

theorem hmk_pat4 : ∀ m', m' <:+ markerL → m' ≠ [] → runP pat4 m' = .fail :=
  hmk_of_tails (by decide)

theorem hmk_pat5 : ∀ m', m' <:+ markerL → m' ≠ [] → runP pat5 m' = .fail :=
  hmk_of_tails (by decide)

theorem hmk_pat6 : ∀ m', m' <:+ markerL → m' ≠ [] → runP pat6 m' = .fail :=
  hmk_of_tails (by decide)

/-! ## The sanitizer leaves no residual matches -/

/-- After `_sanitize_text`, none of the six sensitive patterns matches
anywhere in the output. -/
theorem sanitize_clean : ∀ (s : List Char) (p : List Atom),
    p ∈ SENSITIVE_PATTERNS → hasMatch p (sanitize_text s) = false := by
  intro s p hmem
  have h11 : hasMatch pat1 (subst pat1 s) = false :=
    hasMatch_subst_false hp_pat1 (dichotomy_envKey (by decide)) (rfl : run' pat1 [] = none) hmk_pat1
      _ _ le_rfl (Or.inl rfl)
  have h21 : hasMatch pat1 (subst pat2 (subst pat1 s)) = false :=
    hasMatch_subst_false hp_pat2 (dichotomy_envKey (by decide)) (rfl : run' pat1 [] = none) hmk_pat1
      _ _ le_rfl (Or.inr h11)
  have h22 : hasMatch pat2 (subst pat2 (subst pat1 s)) = false :=
    hasMatch_subst_false hp_pat2 (dichotomy_envKey (by decide)) (rfl : run' pat2 [] = none) hmk_pat2
      _ _ le_rfl (Or.inl rfl)
  have h31 : hasMatch pat1 (subst pat3 (subst pat2 (subst pat1 s))) = false :=
    hasMatch_subst_false hp_pat3 (dichotomy_envKey (by decide)) (rfl : run' pat1 [] = none) hmk_pat1
      _ _ le_rfl (Or.inr h21)
  have h32 : hasMatch pat2 (subst pat3 (subst pat2 (subst pat1 s))) = false :=
    hasMatch_subst_false hp_pat3 (dichotomy_envKey (by decide)) (rfl : run' pat2 [] = none) hmk_pat2
      _ _ le_rfl (Or.inr h22)
  have h33 : hasMatch pat3 (subst pat3 (subst pat2 (subst pat1 s))) = false :=
    hasMatch_subst_false hp_pat3 (dichotomy_envKey (by decide)) (rfl : run' pat3 [] = none) hmk_pat3
      _ _ le_rfl (Or.inl rfl)
  have h41 : hasMatch pat1 (subst pat4 (subst pat3 (subst pat2 (subst pat1 s)))) = false :=
    hasMatch_subst_false hp_pat4 (dichotomy_envKey (by decide)) (rfl : run' pat1 [] = none) hmk_pat1
      _ _ le_rfl (Or.inr h31)
  have h42 : hasMatch pat2 (subst pat4 (subst pat3 (subst pat2 (subst pat1 s)))) = false :=
    hasMatch_subst_false hp_pat4 (dichotomy_envKey (by decide)) (rfl : run' pat2 [] = none) hmk_pat2
      _ _ le_rfl (Or.inr h32)
  have h43 : hasMatch pat3 (subst pat4 (subst pat3 (subst pat2 (subst pat1 s)))) = false :=
    hasMatch_subst_false hp_pat4 (dichotomy_envKey (by decide)) (rfl : run' pat3 [] = none) hmk_pat3
      _ _ le_rfl (Or.inr h33)
  have h44 : hasMatch pat4 (subst pat4 (subst pat3 (subst pat2 (subst pat1 s)))) = false :=
    hasMatch_subst_false hp_pat4 dichotomy_pat4 (rfl : run' pat4 [] = none) hmk_pat4
      _ _ le_rfl (Or.inl rfl)
  have h51 : hasMatch pat1 (subst pat5 (subst pat4 (subst pat3 (subst pat2 (subst pat1 s))))) = false :=
    hasMatch_subst_false hp_pat5 (dichotomy_envKey (by decide)) (rfl : run' pat1 [] = none) hmk_pat1
      _ _ le_rfl (Or.inr h41)
  have h52 : hasMatch pat2 (subst pat5 (subst pat4 (subst pat3 (subst pat2 (subst pat1 s))))) = false :=
    hasMatch_subst_false hp_pat5 (dichotomy_envKey (by decide)) (rfl : run' pat2 [] = none) hmk_pat2
      _ _ le_rfl (Or.inr h42)
  have h53 : hasMatch pat3 (subst pat5 (subst pat4 (subst pat3 (subst pat2 (subst pat1 s))))) = false :=
    hasMatch_subst_false hp_pat5 (dichotomy_envKey (by decide)) (rfl : run' pat3 [] = none) hmk_pat3
      _ _ le_rfl (Or.inr h43)
  have h54 : hasMatch pat4 (subst pat5 (subst pat4 (subst pat3 (subst pat2 (subst pat1 s))))) = false :=
    hasMatch_subst_false hp_pat5 dichotomy_pat4 (rfl : run' pat4 [] = none) hmk_pat4
      _ _ le_rfl (Or.inr h44)
  have h55 : hasMatch pat5 (subst pat5 (subst pat4 (subst pat3 (subst pat2 (subst pat1 s))))) = false :=
    hasMatch_subst_false hp_pat5 dichotomy_pat5 (rfl : run' pat5 [] = none) hmk_pat5
      _ _ le_rfl (Or.inl rfl)
  have h61 : hasMatch pat1 (subst pat6 (subst pat5 (subst pat4 (subst pat3 (subst pat2 (subst pat1 s)))))) = false :=
    hasMatch_subst_false hp_pat6 (dichotomy_envKey (by decide)) (rfl : run' pat1 [] = none) hmk_pat1
      _ _ le_rfl (Or.inr h51)
  have h62 : hasMatch pat2 (subst pat6 (subst pat5 (subst pat4 (subst pat3 (subst pat2 (subst pat1 s)))))) = false :=
    hasMatch_subst_false hp_pat6 (dichotomy_envKey (by decide)) (rfl : run' pat2 [] = none) hmk_pat2
      _ _ le_rfl (Or.inr h52)
  have h63 : hasMatch pat3 (subst pat6 (subst pat5 (subst pat4 (subst pat3 (subst pat2 (subst pat1 s)))))) = false :=
    hasMatch_subst_false hp_pat6 (dichotomy_envKey (by decide)) (rfl : run' pat3 [] = none) hmk_pat3
      _ _ le_rfl (Or.inr h53)
  have h64 : hasMatch pat4 (subst pat6 (subst pat5 (subst pat4 (subst pat3 (subst pat2 (subst pat1 s)))))) = false :=
    hasMatch_subst_false hp_pat6 dichotomy_pat4 (rfl : run' pat4 [] = none) hmk_pat4
      _ _ le_rfl (Or.inr h54)
  have h65 : hasMatch pat5 (subst pat6 (subst pat5 (subst pat4 (subst pat3 (subst pat2 (subst pat1 s)))))) = false :=
    hasMatch_subst_false hp_pat6 dichotomy_pat5 (rfl : run' pat5 [] = none) hmk_pat5
      _ _ le_rfl (Or.inr h55)
  have h66 : hasMatch pat6 (subst pat6 (subst pat5 (subst pat4 (subst pat3 (subst pat2 (subst pat1 s)))))) = false :=
    hasMatch_subst_false hp_pat6 dichotomy_pat6 (rfl : run' pat6 [] = none) hmk_pat6
      _ _ le_rfl (Or.inl rfl)
  have e : sanitize_text s =
      subst pat6 (subst pat5 (subst pat4 (subst pat3 (subst pat2 (subst pat1 s))))) := rfl
  rw [e]
  rcases (by simpa [SENSITIVE_PATTERNS] using hmem :
      p = pat1 ∨ p = pat2 ∨ p = pat3 ∨ p = pat4 ∨ p = pat5 ∨ p = pat6) with
    rfl | rfl | rfl | rfl | rfl | rfl
  · exact h61
  · exact h62
  · exact h63
  · exact h64
  · exact h65
  · exact h66

/-- When no sensitive pattern matches, `_sanitize_text` is the identity. -/
theorem sanitize_id {s : List Char}
    (h : ∀ p ∈ SENSITIVE_PATTERNS, hasMatch p s = false) : sanitize_text s = s := by
  have e : sanitize_text s =
      subst pat6 (subst pat5 (subst pat4 (subst pat3 (subst pat2 (subst pat1 s))))) := rfl
  rw [e, subst_id (h pat1 (by simp [SENSITIVE_PATTERNS])),
    subst_id (h pat2 (by simp [SENSITIVE_PATTERNS])),
    subst_id (h pat3 (by simp [SENSITIVE_PATTERNS])),
    subst_id (h pat4 (by simp [SENSITIVE_PATTERNS])),
    subst_id (h pat5 (by simp [SENSITIVE_PATTERNS])),
    subst_id (h pat6 (by simp [SENSITIVE_PATTERNS]))]

/-- `_sanitize_text` is idempotent. -/
theorem sanitize_idem (s : List Char) :
    sanitize_text (sanitize_text s) = sanitize_text s :=
  sanitize_id (fun p hp => sanitize_clean s p hp)

/-! ## The 20-character threshold of the generic key/token patterns -/

theorem valchar_not_sep {c : Char} (h : isValChar c = true) : isSep c = false := by
  cases hs : isSep c
  · rfl
  · exfalso
    rw [isSep] at hs
    simp only [Bool.or_eq_true, decide_eq_true_eq] at hs
    rcases hs with rfl | rfl <;> exact absurd h (by decide)

theorem valchar_not_ws {c : Char} (h : isValChar c = true) : isWs c = false := by
  cases hw : isWs c
  · rfl
  · exfalso
    rw [isWs] at hw
    simp only [Bool.or_eq_true, decide_eq_true_eq] at hw
    rcases hw with ((((rfl | rfl) | rfl) | rfl) | rfl) | rfl <;>
      exact absurd h (by decide)

theorem valchar_not_quote {c : Char} (h : isValChar c = true) : isQuote c = false := by
  cases hq : isQuote c
  · rfl
  · exfalso
    rw [isQuote] at hq
    simp only [Bool.or_eq_true, decide_eq_true_eq] at hq
    rcases hq with rfl | rfl <;> exact absurd h (by decide)

/-- The env-var key patterns need a `[=:]` separator right after the literal,
so they cannot match inside a run of value characters. -/
theorem run'_lit_sep_none {tl : List Atom} :
    ∀ (ls s : List Char), s.all isValChar = true →
      run' (.lit ls :: .one isSep :: tl) s = none := by
  intro ls s
  induction s generalizing ls with
  | nil =>
    intro _
    simp [run', runP, nullable, nullableAtom]
  | cons c s' ih =>
    intro hall
    obtain ⟨hc, hall'⟩ : isValChar c = true ∧ s'.all isValChar = true := by
      simpa [List.all_cons, Bool.and_eq_true] using hall
    cases ls with
    | nil =>
      have hsc : stepChar (.lit [] :: .one isSep :: tl) c = .fail := by
        simp [stepChar, valchar_not_sep hc]
      exact run'_cons_fail hsc s'
    | cons l ls' =>
      by_cases hcl : c.toLower = l
      · have hsc : stepChar (.lit (l :: ls') :: .one isSep :: tl) c =
            .consumed (.lit ls' :: .one isSep :: tl) := by
          simp [stepChar, hcl]
        rw [run'_cons_consumed hsc]
        exact ih ls' hall'
      · have hsc : stepChar (.lit (l :: ls') :: .one isSep :: tl) c = .fail := by
          simp [stepChar, hcl]
        exact run'_cons_fail hsc s'

theorem hasMatch_envKey_valchars {L : List Char} {tl : List Atom} :
    ∀ v, v.all isValChar = true →
      hasMatch (.lit L :: .one isSep :: tl) v = false := by
  intro v
  induction v with
  | nil =>
    intro _
    rw [hasMatch, run'_lit_sep_none L [] rfl]
    rfl
  | cons c v' ih =>
    intro hall
    obtain ⟨hc, hall'⟩ : isValChar c = true ∧ v'.all isValChar = true := by
      simpa [List.all_cons, Bool.and_eq_true] using hall
    rw [hasMatch, run'_lit_sep_none L (c :: v') hall, Bool.or_eq_false_iff]
    exact ⟨rfl, ih hall'⟩

/-- `fails_of_tails`: turn a decidable check over the finitely many suffixes
of a concrete string into the hypothesis of `hasMatch_append_fail`. -/
theorem fails_of_tails {q : List Atom} {a : List Char}
    (h : ∀ m' ∈ a.tails, m' = [] ∨ (runP q m').isFail = true) :
    ∀ m', m' <:+ a → m' ≠ [] → runP q m' = .fail := by
  intro m' hsf hne
  rcases h m' ((List.mem_tails m' a).mpr hsf) with rfl | hf
  · exact absurd rfl hne
  · exact isFail_eq hf

/-- Consuming a run of class characters decrements the `{k,}` counter. -/
theorem atLeast_through (cl : Char → Bool) :
    ∀ (v : List Char) (k : Nat) (rest : List Char), v.all cl = true →
      runP [.atLeast cl k] (v ++ rest) = runP [.atLeast cl (k - v.length)] rest := by
  intro v
  induction v with
  | nil => intro k rest _; rfl
  | cons c v' ih =>
    intro k rest hall
    obtain ⟨hc, hall'⟩ : cl c = true ∧ v'.all cl = true := by
      simpa [List.all_cons, Bool.and_eq_true] using hall
    cases k with
    | zero =>
      have hsc : stepChar [.atLeast cl 0] c = .consumed [.atLeast cl 0] := by
        simp [stepChar, hc]
      rw [List.cons_append, runP, hsc]
      show runP [.atLeast cl 0] (v' ++ rest) = runP [.atLeast cl (0 - (c :: v').length)] rest
      rw [ih 0 rest hall']
      have hz : (0 : Nat) - v'.length = 0 - (c :: v').length := by
        simp only [List.length_cons]
        omega
      rw [hz]
    | succ k' =>
      have hsc : stepChar [.atLeast cl (k' + 1)] c = .consumed [.atLeast cl k'] := by
        simp [stepChar, hc]
      rw [List.cons_append, runP, hsc]
      show runP [.atLeast cl k'] (v' ++ rest) =
        runP [.atLeast cl (k' + 1 - (c :: v').length)] rest
      rw [ih k' rest hall']
      have hz : k' - v'.length = k' + 1 - (c :: v').length := by
        simp only [List.length_cons]
        omega
      rw [hz]

theorem run'_eq_none_of_more {as as' : List Atom} {s : List Char}
    (h : runP as s = .more as') (hn : nullable as' = false) :
    run' as s = none := by
  rw [run', h]
  show (if nullable as' = true then some [] else none) = none
  rw [hn]
  rfl

/-- After `api_key=` (the state `\s*["']?[a-zA-Z0-9_-]{20,}`), a value run of
fewer than 20 characters followed by a terminating character does not
match. -/
theorem tail20_short_none (v w : List Char) (hv : v.all isValChar = true)
    (hlen : v.length ≤ 19)
    (hw : w = [] ∨ ∃ y w', w = y :: w' ∧ isValChar y = false ∧
      isWs y = false ∧ isQuote y = false) :
    run' [.star isWs, .opt isQuote, .atLeast isValChar 20] (v ++ w) = none := by
  cases v with
  | nil =>
    rcases hw with rfl | ⟨y, w', rfl, hny, hnw, hnq⟩
    · rfl
    · have hsc : stepChar [.star isWs, .opt isQuote, .atLeast isValChar 20] y = .fail := by
        simp [stepChar, hnw, hnq, hny]
      exact run'_cons_fail hsc w'
  | cons c v' =>
    obtain ⟨hc, hall'⟩ : isValChar c = true ∧ v'.all isValChar = true := by
      simpa [List.all_cons, Bool.and_eq_true] using hv
    have hsc : stepChar [.star isWs, .opt isQuote, .atLeast isValChar 20] c =
        .consumed [.atLeast isValChar 19] := by
      simp [stepChar, valchar_not_ws hc, valchar_not_quote hc, hc]
    rw [List.cons_append, run'_cons_consumed hsc,
      show run' [.atLeast isValChar 19] (v' ++ w) =
        (match runP [.atLeast isValChar 19] (v' ++ w) with
          | PR.fail => none
          | PR.done r => some r
          | PR.more as' => if nullable as' then some [] else none) from rfl,
      atLeast_through isValChar v' 19 w hall']
    have hk : ∃ k', 19 - v'.length = k' + 1 := by
      refine ⟨19 - v'.length - 1, ?_⟩
      simp only [List.length_cons] at hlen
      omega
    obtain ⟨k', hk⟩ := hk
    rw [hk]
    rcases hw with rfl | ⟨y, w', rfl, hny, hnw, hnq⟩
    · show (if nullable [.atLeast isValChar (k' + 1)] then some [] else none) = none
      have : nullable [.atLeast isValChar (k' + 1)] = false := by
        simp [nullable, nullableAtom]
      rw [this]
      rfl
    · have hsc2 : stepChar [.atLeast isValChar (k' + 1)] y = .fail := by
        simp [stepChar, hny]
      rw [runP, hsc2]

/-! ## Substring containment (Python's `in` operator on strings) -/

def containsSub (needle : List Char) : List Char → Bool
  | [] => needle.isEmpty
  | x :: hay => needle.isPrefixOf (x :: hay) || containsSub needle hay

theorem isPrefixOf_append_self : ∀ (l z : List Char), l.isPrefixOf (l ++ z) = true := by
  intro l z
  induction l with
  | nil => simp [List.isPrefixOf]
  | cons c l ih => simp [List.isPrefixOf, ih]

theorem containsSub_append_self (z : List Char) :
    containsSub markerL (markerL ++ z) = true := by
  rw [markerL_cons, List.cons_append, containsSub, Bool.or_eq_true]
  exact Or.inl (by rw [← List.cons_append, ← markerL_cons]; exact isPrefixOf_append_self markerL z)

/-- If the pattern matches somewhere, the substituted text contains the
marker.  (`hp` is the match-shape property established for each sensitive
pattern: matches are non-empty.) -/
theorem marker_in_subst {p : List Atom}
    (hp : ∀ s r, run' p s = some r →
      ∃ x s₂, s = x :: s₂ ∧ isNonWs x = true ∧ r.length < s.length) :
    ∀ {t : List Char}, hasMatch p t = true →
      containsSub markerL (subst p t) = true := by
  have h0 : run' p [] = none := by
    cases hr : run' p [] with
    | none => rfl
    | some r =>
      obtain ⟨x, s₂, heq, _, _⟩ := hp [] r hr
      exact List.noConfusion heq
  intro t
  induction t with
  | nil => intro h; rw [hasMatch, h0] at h; exact Bool.noConfusion h
  | cons x t' ih =>
    intro h
    rw [subst_cons]
    cases hr : run' p (x :: t') with
    | none =>
      show containsSub markerL (x :: subst p t') = true
      have htail : hasMatch p t' = true := by
        rw [hasMatch, hr, Bool.or_eq_true] at h
        rcases h with h | h
        · exact absurd h (by simp)
        · exact h
      rw [containsSub, Bool.or_eq_true]
      exact Or.inr (ih htail)
    | some r =>
      show containsSub markerL
        (if r.length < t'.length + 1 then markerL ++ subst p r
          else x :: subst p t') = true
      obtain ⟨x2, s₂, heq, _, hlt⟩ := hp _ _ hr
      have hlen : r.length < t'.length + 1 := by
        simpa using hlt
      rw [if_pos hlen]
      exact containsSub_append_self (subst p r)

/-- Substitution either leaves the text unchanged or puts the marker into
it. -/
theorem subst_marker_or_id (p : List Atom)
    (hp : ∀ s r, run' p s = some r →
      ∃ x s₂, s = x :: s₂ ∧ isNonWs x = true ∧ r.length < s.length)
    (t : List Char) :
    subst p t = t ∨ containsSub markerL (subst p t) = true := by
  cases hm : hasMatch p t with
  | false => exact Or.inl (subst_id hm)
  | true => exact Or.inr (marker_in_subst hp hm)

theorem marker_preserved {p : List Atom}
    (hp : ∀ s r, run' p s = some r →
      ∃ x s₂, s = x :: s₂ ∧ isNonWs x = true ∧ r.length < s.length)
    {t : List Char} (h : containsSub markerL t = true) :
    containsSub markerL (subst p t) = true := by
  cases hm : hasMatch p t with
  | false => rw [subst_id hm]; exact h
  | true => exact marker_in_subst hp hm

/-- If some sensitive pattern matched the input, the sanitized output
contains the redaction marker. -/
theorem sanitize_marker {s : List Char} {p : List Atom} (hmem : p ∈ SENSITIVE_PATTERNS)
    (h : hasMatch p s = true) :
    containsSub markerL (sanitize_text s) = true := by
  by_cases he : sanitize_text s = s
  · exfalso
    have hclean := sanitize_clean s p hmem
    rw [he, h] at hclean
    exact Bool.noConfusion hclean
  · have e : sanitize_text s =
      subst pat6 (subst pat5 (subst pat4 (subst pat3 (subst pat2 (subst pat1 s))))) := rfl
    rw [e] at he ⊢
    rcases subst_marker_or_id pat1 hp_pat1 s with hid | hmk
    · rw [hid] at he ⊢
      rcases subst_marker_or_id pat2 hp_pat2 s with hid2 | hmk2
      · rw [hid2] at he ⊢
        rcases subst_marker_or_id pat3 hp_pat3 s with hid3 | hmk3
        · rw [hid3] at he ⊢
          rcases subst_marker_or_id pat4 hp_pat4 s with hid4 | hmk4
          · rw [hid4] at he ⊢
            rcases subst_marker_or_id pat5 hp_pat5 s with hid5 | hmk5
            · rw [hid5] at he ⊢
              rcases subst_marker_or_id pat6 hp_pat6 s with hid6 | hmk6
              · exact absurd hid6 he
              · exact hmk6
            · exact marker_preserved hp_pat6 hmk5
          · exact marker_preserved hp_pat6 (marker_preserved hp_pat5 hmk4)
        · exact marker_preserved hp_pat6 (marker_preserved hp_pat5
            (marker_preserved hp_pat4 hmk3))
      · exact marker_preserved hp_pat6 (marker_preserved hp_pat5
          (marker_preserved hp_pat4 (marker_preserved hp_pat3 hmk2)))
    · exact marker_preserved hp_pat6 (marker_preserved hp_pat5
        (marker_preserved hp_pat4 (marker_preserved hp_pat3
          (marker_preserved hp_pat2 hmk))))

/-! ## Behaviour on a generic `api_key=<value>` assignment -/

/-- A short (≤ 19 characters) value after `api_key=` does not match the
generic api-key pattern at the position of the assignment. -/
theorem pat4_short_none (v w : List Char) (hv : v.all isValChar = true)
    (hlen : v.length ≤ 19)
    (hw : w = [] ∨ ∃ y w', w = y :: w' ∧ isValChar y = false ∧
      isWs y = false ∧ isQuote y = false) :
    run' pat4 (lstr "api_key=" ++ (v ++ w)) = none := by
  have e : runP pat4 (lstr "api_key=" ++ (v ++ w)) =
      runP [.star isWs, .opt isQuote, .atLeast isValChar 20] (v ++ w) := rfl
  have h := tail20_short_none v w hv hlen hw
  rw [run'] at h ⊢
  rw [e]
  exact h

theorem hasMatch_envKey_apikey (L : List Char)
    (htails : ∀ m' ∈ (lstr "api_key=").tails, m' = [] ∨
      (runP (.lit L :: [.one isSep, .star isWs, .atLeast isNonWs 1]) m').isFail = true)
    (v : List Char) (hv : v.all isValChar = true) :
    hasMatch (.lit L :: [.one isSep, .star isWs, .atLeast isNonWs 1])
      (lstr "api_key=" ++ v) = false :=
  hasMatch_append_fail (fails_of_tails htails) (hasMatch_envKey_valchars v hv)

set_option maxHeartbeats 2000000 in
/-- A value of 20 or more `[a-zA-Z0-9_-]` characters after `api_key=`:
the whole assignment is replaced by the redaction marker. -/
theorem sanitize_apikey_long (v : List Char) (hv : v.all isValChar = true)
    (hlen : 20 ≤ v.length) :
    sanitize_text (lstr "api_key=" ++ v) = markerL := by
  obtain ⟨c, v', rfl⟩ : ∃ c v', v = c :: v' := by
    cases v with
    | nil => simp at hlen
    | cons c v' => exact ⟨c, v', rfl⟩
  obtain ⟨hc, hall'⟩ : isValChar c = true ∧ v'.all isValChar = true := by
    simpa [List.all_cons, Bool.and_eq_true] using hv
  have hz : 19 - v'.length = 0 := by
    simp only [List.length_cons] at hlen
    omega
  have hsc : stepChar [.star isWs, .opt isQuote, .atLeast isValChar 20] c =
      .consumed [.atLeast isValChar 19] := by
    simp [stepChar, valchar_not_ws hc, valchar_not_quote hc, hc]
  have hP : runP pat4 (lstr "api_key=" ++ (c :: v')) = .more [.atLeast isValChar 0] := by
    rw [show runP pat4 (lstr "api_key=" ++ (c :: v')) =
        runP [.star isWs, .opt isQuote, .atLeast isValChar 20] (c :: v') from rfl,
      runP, hsc]
    show runP [.atLeast isValChar 19] v' = .more [.atLeast isValChar 0]
    have e2 := atLeast_through isValChar v' 19 [] hall'
    rw [List.append_nil] at e2
    rw [e2, hz]
    rfl
  have hrun : run' pat4 (lstr "api_key=" ++ (c :: v')) = some [] := by
    rw [run', hP]
    rfl
  have hsubst : subst pat4 (lstr "api_key=" ++ (c :: v')) = markerL := by
    have hcons : lstr "api_key=" ++ (c :: v') = 'a' :: (lstr "pi_key=" ++ (c :: v')) := rfl
    rw [hcons] at hrun
    rw [hcons, subst_cons, hrun]
    show (if ([] : List Char).length < (lstr "pi_key=" ++ (c :: v')).length + 1
        then markerL ++ subst pat4 []
        else 'a' :: subst pat4 (lstr "pi_key=" ++ (c :: v'))) = markerL
    rw [if_pos (by simp), subst_nil, List.append_nil]
  have h1 : hasMatch pat1 (lstr "api_key=" ++ (c :: v')) = false :=
    hasMatch_envKey_apikey (lstr "phidata_api_key") (by decide) (c :: v') hv
  have h2 : hasMatch pat2 (lstr "api_key=" ++ (c :: v')) = false :=
    hasMatch_envKey_apikey (lstr "groq_api_key") (by decide) (c :: v') hv
  have h3 : hasMatch pat3 (lstr "api_key=" ++ (c :: v')) = false :=
    hasMatch_envKey_apikey (lstr "openai_api_key") (by decide) (c :: v') hv
  have e : sanitize_text (lstr "api_key=" ++ (c :: v')) =
      subst pat6 (subst pat5 (subst pat4 (subst pat3 (subst pat2
        (subst pat1 (lstr "api_key=" ++ (c :: v'))))))) := rfl
  rw [e, subst_id h1, subst_id h2, subst_id h3, hsubst,
    subst_id (by decide : hasMatch pat5 markerL = false),
    subst_id (by decide : hasMatch pat6 markerL = false)]

/-! ## Behaviour on a generic `token=<value>` assignment

`token=` reaches the same residual matcher state `\s*["']?[a-zA-Z0-9_-]{20,}`
as `api_key=`, so the short-value case reuses `tail20_short_none`.  For the
redaction case the passes for patterns 1–4 must leave `token=<value>`
unchanged; inside a run of value characters any pattern whose leading atoms
are literals and optional/starred classes dies at its mandatory `[=:]`
atom, which the next lemmas capture. -/

/-- A short (≤ 19 characters) value after `token=` does not match the
generic token pattern at the position of the assignment. -/
theorem pat5_short_none (v w : List Char) (hv : v.all isValChar = true)
    (hlen : v.length ≤ 19)
    (hw : w = [] ∨ ∃ y w', w = y :: w' ∧ isValChar y = false ∧
      isWs y = false ∧ isQuote y = false) :
    run' pat5 (lstr "token=" ++ (v ++ w)) = none := by
  have e : runP pat5 (lstr "token=" ++ (v ++ w)) =
      runP [.star isWs, .opt isQuote, .atLeast isValChar 20] (v ++ w) := rfl
  have h := tail20_short_none v w hv hlen hw
  rw [run'] at h ⊢
  rw [e]
  exact h

theorem nullable_append : ∀ (a b : List Atom),
    nullable (a ++ b) = (nullable a && nullable b) := by
  intro a b
  induction a with
  | nil => simp [nullable]
  | cons x a ih => simp [nullable, ih, Bool.and_assoc]

/-- Atom lists made only of literals and optional/starred classes: the
leading part of a pattern before its mandatory `[=:]` atom. -/
def noSepPre : List Atom → Bool
  | [] => true
  | .lit _ :: t => noSepPre t
  | .opt _ :: t => noSepPre t
  | .star _ :: t => noSepPre t
  | _ => false

theorem stepChar_sepGuard (tl : List Atom) (c : Char) (hsep : isSep c = false) :
    ∀ (pre : List Atom), noSepPre pre = true →
      stepChar (pre ++ .one isSep :: tl) c = .fail ∨
      ∃ pre', stepChar (pre ++ .one isSep :: tl) c =
          .consumed (pre' ++ .one isSep :: tl) ∧ noSepPre pre' = true := by
  intro pre
  induction pre with
  | nil =>
    intro _
    left
    simp [stepChar, hsep]
  | cons a p' ih =>
    intro hpre
    cases a with
    | lit ls =>
      cases ls with
      | nil =>
        rw [List.cons_append, stepChar]
        exact ih (by simpa [noSepPre] using hpre)
      | cons l ls' =>
        by_cases hcl : c.toLower = l
        · right
          refine ⟨.lit ls' :: p', ?_, by simpa [noSepPre] using hpre⟩
          rw [List.cons_append, stepChar, if_pos hcl]
          rfl
        · left
          rw [List.cons_append, stepChar, if_neg hcl]
    | opt cl =>
      by_cases hcc : cl c
      · right
        refine ⟨p', ?_, by simpa [noSepPre] using hpre⟩
        rw [List.cons_append, stepChar, if_pos hcc]
      · rw [List.cons_append, stepChar, if_neg hcc]
        exact ih (by simpa [noSepPre] using hpre)
    | star cl =>
      by_cases hcc : cl c
      · right
        refine ⟨.star cl :: p', ?_, by simpa [noSepPre] using hpre⟩
        rw [List.cons_append, stepChar, if_pos hcc]
      · rw [List.cons_append, stepChar, if_neg hcc]
        exact ih (by simpa [noSepPre] using hpre)
    | one cl => simp [noSepPre] at hpre
    | atLeast cl k => simp [noSepPre] at hpre

/-- Inside a run of value characters, a pattern made of a `noSepPre` part
followed by a mandatory `[=:]` atom cannot match. -/
theorem sepGuard_none {tl : List Atom} :
    ∀ (s : List Char), s.all isValChar = true → ∀ (pre : List Atom),
      noSepPre pre = true → run' (pre ++ .one isSep :: tl) s = none := by
  intro s
  induction s with
  | nil =>
    intro _ pre _
    have hn : nullable (pre ++ .one isSep :: tl) = false := by
      rw [nullable_append, nullable]
      simp [nullableAtom]
    show (if nullable (pre ++ .one isSep :: tl) = true then some [] else none) = none
    rw [hn]
    rfl
  | cons c s' ih =>
    intro hall pre hpre
    obtain ⟨hc, hall'⟩ : isValChar c = true ∧ s'.all isValChar = true := by
      simpa [List.all_cons, Bool.and_eq_true] using hall
    rcases stepChar_sepGuard tl c (valchar_not_sep hc) pre hpre with hf | ⟨pre', hcons, hpre'⟩
    · exact run'_cons_fail hf s'
    · rw [run'_cons_consumed hcons]
      exact ih hall' pre' hpre'

theorem hasMatch_sepGuard_valchars {tl : List Atom} (pre : List Atom)
    (hpre : noSepPre pre = true) :
    ∀ v, v.all isValChar = true →
      hasMatch (pre ++ .one isSep :: tl) v = false := by
  intro v
  induction v with
  | nil =>
    intro _
    rw [hasMatch, sepGuard_none [] rfl pre hpre]
    rfl
  | cons c v' ih =>
    intro hall
    obtain ⟨hc, hall'⟩ : isValChar c = true ∧ v'.all isValChar = true := by
      simpa [List.all_cons, Bool.and_eq_true] using hall
    rw [hasMatch, sepGuard_none (c :: v') hall pre hpre, Bool.or_eq_false_iff]
    exact ⟨rfl, ih hall'⟩

/-- Like `hasMatch_envKey_apikey`, for an arbitrary concrete assignment
text in front of the value run. -/
theorem hasMatch_envKey_assign (L a : List Char)
    (htails : ∀ m' ∈ a.tails, m' = [] ∨
      (runP (.lit L :: [.one isSep, .star isWs, .atLeast isNonWs 1]) m').isFail = true)
    (v : List Char) (hv : v.all isValChar = true) :
    hasMatch (.lit L :: [.one isSep, .star isWs, .atLeast isNonWs 1])
      (a ++ v) = false :=
  hasMatch_append_fail (fails_of_tails htails) (hasMatch_envKey_valchars v hv)

/-- The generic api-key pattern has no match in `token=<value chars>`:
its mandatory `[=:]` atom cannot be fed from value characters, and the
`token=` characters themselves never start an `api…` literal. -/
theorem hasMatch_pat4_token (v : List Char) (hv : v.all isValChar = true) :
    hasMatch pat4 (lstr "token=" ++ v) = false :=
  hasMatch_append_fail (fails_of_tails (by decide))
    (hasMatch_sepGuard_valchars
      [.lit (lstr "api"), .opt isUscMinus, .lit (lstr "key"), .opt isQuote, .star isWs]
      rfl v hv)

set_option maxHeartbeats 2000000 in
/-- A value of 20 or more `[a-zA-Z0-9_-]` characters after `token=`:
the whole assignment is replaced by the redaction marker. -/
theorem sanitize_token_long (v : List Char) (hv : v.all isValChar = true)
    (hlen : 20 ≤ v.length) :
    sanitize_text (lstr "token=" ++ v) = markerL := by
  obtain ⟨c, v', rfl⟩ : ∃ c v', v = c :: v' := by
    cases v with
    | nil => simp at hlen
    | cons c v' => exact ⟨c, v', rfl⟩
  obtain ⟨hc, hall'⟩ : isValChar c = true ∧ v'.all isValChar = true := by
    simpa [List.all_cons, Bool.and_eq_true] using hv
  have hz : 19 - v'.length = 0 := by
    simp only [List.length_cons] at hlen
    omega
  have hsc : stepChar [.star isWs, .opt isQuote, .atLeast isValChar 20] c =
      .consumed [.atLeast isValChar 19] := by
    simp [stepChar, valchar_not_ws hc, valchar_not_quote hc, hc]
  have hP : runP pat5 (lstr "token=" ++ (c :: v')) = .more [.atLeast isValChar 0] := by
    rw [show runP pat5 (lstr "token=" ++ (c :: v')) =
        runP [.star isWs, .opt isQuote, .atLeast isValChar 20] (c :: v') from rfl,
      runP, hsc]
    show runP [.atLeast isValChar 19] v' = .more [.atLeast isValChar 0]
    have e2 := atLeast_through isValChar v' 19 [] hall'
    rw [List.append_nil] at e2
    rw [e2, hz]
    rfl
  have hrun : run' pat5 (lstr "token=" ++ (c :: v')) = some [] := by
    rw [run', hP]
    rfl
  have hsubst : subst pat5 (lstr "token=" ++ (c :: v')) = markerL := by
    have hcons : lstr "token=" ++ (c :: v') = 't' :: (lstr "oken=" ++ (c :: v')) := rfl
    rw [hcons] at hrun
    rw [hcons, subst_cons, hrun]
    show (if ([] : List Char).length < (lstr "oken=" ++ (c :: v')).length + 1
        then markerL ++ subst pat5 []
        else 't' :: subst pat5 (lstr "oken=" ++ (c :: v'))) = markerL
    rw [if_pos (by simp), subst_nil, List.append_nil]
  have h1 : hasMatch pat1 (lstr "token=" ++ (c :: v')) = false :=
    hasMatch_envKey_assign (lstr "phidata_api_key") (lstr "token=") (by decide) (c :: v') hv
  have h2 : hasMatch pat2 (lstr "token=" ++ (c :: v')) = false :=
    hasMatch_envKey_assign (lstr "groq_api_key") (lstr "token=") (by decide) (c :: v') hv
  have h3 : hasMatch pat3 (lstr "token=" ++ (c :: v')) = false :=
    hasMatch_envKey_assign (lstr "openai_api_key") (lstr "token=") (by decide) (c :: v') hv
  have h4 : hasMatch pat4 (lstr "token=" ++ (c :: v')) = false :=
    hasMatch_pat4_token (c :: v') hv
  have e : sanitize_text (lstr "token=" ++ (c :: v')) =
      subst pat6 (subst pat5 (subst pat4 (subst pat3 (subst pat2
        (subst pat1 (lstr "token=" ++ (c :: v'))))))) := rfl
  rw [e, subst_id h1, subst_id h2, subst_id h3, subst_id h4, hsubst,
    subst_id (by decide : hasMatch pat6 markerL = false)]

/-! ## `SensitiveDataFilter.filter`

Python values that can appear as a log record's `msg`/`args`, and the
recursive `_sanitize_value`. -/

inductive PyVal where
  /-- a Python `str` -/
  | vstr : List Char → PyVal
  /-- a Python `int` -/
  | vint : Int → PyVal
  /-- a Python `dict` (string keys suffice for log arguments) -/
  | vdict : List (List Char × PyVal) → PyVal
  /-- a Python `tuple` -/
  | vtuple : List PyVal → PyVal
  /-- a Python `list` -/
  | vlist : List PyVal → PyVal
  /-- `None` -/
  | vnone : PyVal

mutual

/-- `SensitiveDataFilter._sanitize_value`: sanitize strings, recurse into
dicts, lists and tuples, leave other values unchanged. -/
def sanitize_value : PyVal → PyVal
  | .vstr s => .vstr (sanitize_text s)
  | .vdict l => .vdict (sanitizeEntries l)
  | .vlist l => .vlist (sanitizeVals l)
  | .vtuple l => .vtuple (sanitizeVals l)
  | v => v

def sanitizeEntries : List (List Char × PyVal) → List (List Char × PyVal)
  | [] => []
  | (k, v) :: t => (k, sanitize_value v) :: sanitizeEntries t

def sanitizeVals : List PyVal → List PyVal
  | [] => []
  | v :: t => sanitize_value v :: sanitizeVals t

end

/-- A log record: the fields of `logging.LogRecord` that the filter
touches. -/
structure LogRecord where
  msg : PyVal
  args : PyVal

/-- Python truthiness of the values above (`if record.args:`). -/
def pyTruthy : PyVal → Bool
  | .vstr s => !s.isEmpty
  | .vint n => n ≠ 0
  | .vdict l => !l.isEmpty
  | .vtuple l => !l.isEmpty
  | .vlist l => !l.isEmpty
  | .vnone => false

/-- `SensitiveDataFilter.filter`: sanitize the message when it is a string,
sanitize dict/tuple arguments when `args` is truthy, and always return
`True` (records are modified, never suppressed). -/
def SensitiveDataFilter_filter (record : LogRecord) : LogRecord × Bool :=
  let msg :=
    match record.msg with
    | .vstr s => .vstr (sanitize_text s)
    | m => m
  let args :=
    if pyTruthy record.args then
      match record.args with
      | .vdict l => PyVal.vdict (sanitizeEntries l)
      | .vtuple l => PyVal.vtuple (sanitizeVals l)
      | a => a
    else record.args
  (⟨msg, args⟩, true)

/-! ## `error_handler.py`: the error taxonomy -/

/-- The `ErrorType` enum. -/
inductive ErrorType where
  | configuration_error : ErrorType
  | agent_execution_error : ErrorType
  | api_error : ErrorType
  | validation_error : ErrorType
  | network_error : ErrorType
  | unknown_error : ErrorType
deriving DecidableEq

/-- `ErrorType.value`: the string value of each enum member. -/
def ErrorType.value : ErrorType → List Char
  | .configuration_error => lstr "configuration_error"
  | .agent_execution_error => lstr "agent_execution_error"
  | .api_error => lstr "api_error"
  | .validation_error => lstr "validation_error"
  | .network_error => lstr "network_error"
  | .unknown_error => lstr "unknown_error"

/-- JSON-like values stored in the `details` mapping and in `to_dict`
responses. -/
inductive JVal where
  | jstr : List Char → JVal
  | jint : Int → JVal
  | jdict : List (List Char × JVal) → JVal

/-- `FinancialAgentError`: message, error type and details mapping. -/
structure FinancialAgentError where
  message : List Char
  error_type : ErrorType
  details : List (List Char × JVal)

/-- The `FinancialAgentError.__init__` constructor: `details or {}`. -/
def FinancialAgentError_mk (message : List Char) (error_type : ErrorType)
    (details : Option (List (List Char × JVal))) : FinancialAgentError :=
  ⟨message, error_type, details.getD []⟩

/-- `FinancialAgentError.to_dict`. -/
def to_dict (e : FinancialAgentError) : List (List Char × JVal) :=
  [(lstr "error", .jstr e.message),
   (lstr "error_type", .jstr e.error_type.value),
   (lstr "details", .jdict e.details)]

/-- `ConfigurationError(message, details)`. -/
def ConfigurationError_mk (message : List Char)
    (details : Option (List (List Char × JVal))) : FinancialAgentError :=
  FinancialAgentError_mk message .configuration_error details

/-- `AgentExecutionError(message, details)`. -/
def AgentExecutionError_mk (message : List Char)
    (details : Option (List (List Char × JVal))) : FinancialAgentError :=
  FinancialAgentError_mk message .agent_execution_error details

/-- `APIError(message, details)`. -/
def APIError_mk (message : List Char)
    (details : Option (List (List Char × JVal))) : FinancialAgentError :=
  FinancialAgentError_mk message .api_error details

/-- `ValidationError(message, details)`. -/
def ValidationError_mk (message : List Char)
    (details : Option (List (List Char × JVal))) : FinancialAgentError :=
  FinancialAgentError_mk message .validation_error details

/-- `NetworkError(message, details)`. -/
def NetworkError_mk (message : List Char)
    (details : Option (List (List Char × JVal))) : FinancialAgentError :=
  FinancialAgentError_mk message .network_error details

/-! ## Python exceptions

The constructors model the exception classes that `format_error_response`
discriminates on.  The `isinstance` functions encode Python's exception
hierarchy: `IOError` is an alias of `OSError`, and `FileNotFoundError`,
`ConnectionError` and `TimeoutError` are subclasses of `OSError`. -/

inductive PyExc where
  /-- an instance of `FinancialAgentError` (or a subclass) -/
  | financial : FinancialAgentError → PyExc
  /-- `FileNotFoundError(msg)` -/
  | fileNotFoundError : List Char → PyExc
  /-- a plain `OSError`/`IOError` that is none of the subclasses below -/
  | ioError : List Char → PyExc
  /-- `ConnectionError(msg)` -/
  | connectionError : List Char → PyExc
  /-- `TimeoutError(msg)` -/
  | timeoutError : List Char → PyExc
  /-- `ValueError(msg)` -/
  | valueError : List Char → PyExc
  /-- any other exception: type name and message -/
  | otherExc : List Char → List Char → PyExc

/-- `str(error)`. -/
def PyExc.text : PyExc → List Char
  | .financial e => e.message
  | .fileNotFoundError m => m
  | .ioError m => m
  | .connectionError m => m
  | .timeoutError m => m
  | .valueError m => m
  | .otherExc _ m => m

/-- `type(error).__name__`. -/
def PyExc.typeName : PyExc → List Char
  | .financial _ => lstr "FinancialAgentError"
  | .fileNotFoundError _ => lstr "FileNotFoundError"
  | .ioError _ => lstr "OSError"
  | .connectionError _ => lstr "ConnectionError"
  | .timeoutError _ => lstr "TimeoutError"
  | .valueError _ => lstr "ValueError"
  | .otherExc n _ => n

/-- `isinstance(error, FinancialAgentError)`. -/
def isinstance_FinancialAgentError : PyExc → Bool
  | .financial _ => true
  | _ => false

/-- `isinstance(error, (FileNotFoundError, IOError))`.  Since `IOError` is
`OSError`, this is true for every `OSError`, including `ConnectionError` and
`TimeoutError`. -/
def isinstance_FileNotFoundError_or_IOError : PyExc → Bool
  | .fileNotFoundError _ => true
  | .ioError _ => true
  | .connectionError _ => true
  | .timeoutError _ => true
  | _ => false

/-- `isinstance(error, ValueError)`. -/
def isinstance_ValueError : PyExc → Bool
  | .valueError _ => true
  | _ => false

/-- `isinstance(error, (ConnectionError, TimeoutError))`. -/
def isinstance_ConnectionError_or_TimeoutError : PyExc → Bool
  | .connectionError _ => true
  | .timeoutError _ => true
  | _ => false

/-- `format_error_response`. -/
def format_error_response (error : PyExc) : List (List Char × JVal) :=
  match error with
  | .financial e => to_dict e
  | _ =>
    let error_message := error.text
    let error_type : ErrorType :=
      if isinstance_FileNotFoundError_or_IOError error then .configuration_error
      else if isinstance_ValueError error then .validation_error
      else if isinstance_ConnectionError_or_TimeoutError error then .network_error
      else .unknown_error
    [(lstr "error", .jstr error_message),
     (lstr "error_type", .jstr error_type.value),
     (lstr "details", .jdict [(lstr "exception_type", .jstr error.typeName)])]

/-! ## `handle_agent_execution_error` and `handle_api_error` -/

def toLowerL (s : List Char) : List Char := s.map Char.toLower

/-- `any(keyword in error_msg for keyword in keywords)`. -/
def anyKeyword (keywords : List (List Char)) (error_msg : List Char) : Bool :=
  keywords.any fun k => containsSub k error_msg

def invalidTickerMessage : List Char :=
  lstr ("Invalid ticker symbol. Please verify the ticker symbol and try again. " ++
    "Ensure the ticker is spelled correctly and the company is publicly traded.")

def rateLimitMessage : List Char :=
  lstr ("API rate limit exceeded. Please wait a moment and try again. " ++
    "If the issue persists, consider reducing query frequency.")

def networkMessage : List Char :=
  lstr ("Network error occurred while processing your request. " ++
    "Please check your internet connection and try again.")

/-- `handle_agent_execution_error(error, agent_name)`. -/
def handle_agent_execution_error (error : PyExc) (agent_name : List Char) :
    FinancialAgentError :=
  let error_msg := toLowerL error.text
  if anyKeyword [lstr "ticker", lstr "symbol", lstr "not found"] error_msg then
    AgentExecutionError_mk invalidTickerMessage
      (some [(lstr "agent", .jstr agent_name),
        (lstr "error_category", .jstr (lstr "invalid_ticker")),
        (lstr "original_error", .jstr error.text)])
  else if anyKeyword [lstr "rate limit", lstr "too many requests", lstr "429"] error_msg then
    AgentExecutionError_mk rateLimitMessage
      (some [(lstr "agent", .jstr agent_name),
        (lstr "error_category", .jstr (lstr "rate_limit")),
        (lstr "original_error", .jstr error.text)])
  else if anyKeyword [lstr "connection", lstr "timeout", lstr "network"] error_msg then
    AgentExecutionError_mk networkMessage
      (some [(lstr "agent", .jstr agent_name),
        (lstr "error_category", .jstr (lstr "network")),
        (lstr "original_error", .jstr error.text)])
  else
    AgentExecutionError_mk (agent_name ++ lstr " execution failed: " ++ error.text)
      (some [(lstr "agent", .jstr agent_name),
        (lstr "original_error", .jstr error.text),
        (lstr "exception_type", .jstr error.typeName)])

/-- `handle_api_error(error, status_code)`.  A `status_code` of `none`
models Python's `None`; `if status_code:` is falsy for `None` and `0`. -/
def handle_api_error (error : PyExc) (status_code : Option Int) :
    FinancialAgentError :=
  let base := [(lstr "original_error", .jstr error.text),
    (lstr "exception_type", .jstr error.typeName)]
  let details :=
    match status_code with
    | some n => if n ≠ 0 then base ++ [(lstr "status_code", .jint n)] else base
    | none => base
  let message :=
    if status_code = some 400 then
      lstr "Invalid request format. Please check your query and try again."
    else if status_code = some 401 then
      lstr "Authentication failed. Please check your API keys."
    else if status_code = some 403 then
      lstr "Access forbidden. Please verify your API key permissions."
    else if status_code = some 404 then
      lstr "Resource not found. Please check your request."
    else if status_code = some 429 then
      lstr "Rate limit exceeded. Please wait and try again."
    else if status_code = some 500 then
      lstr "Internal server error. Please try again later."
    else if status_code = some 503 then
      lstr "Service temporarily unavailable. Please try again later."
    else
      lstr "API error occurred: " ++ error.text
  APIError_mk message (some details)

/-! ## `financial_agent.py`: `execute_query` -/

/-- `dict.get(key, default)` over an association list. -/
def lookupD {β : Type} : List (List Char × β) → List Char → β → β
  | [], _, d => d
  | (k, v) :: t, key, d => if k = key then v else lookupD t key d

/-- Did the call return normally? -/
def exceptOk : Except PyExc Unit → Bool
  | .ok _ => true
  | .error _ => false

/-- `execute_query(query, agent_type)`: select the agent from `agent_map`
(default: the multi-agent system), call its `run` method once, return `True`
on success; both `except` branches (FinancialAgentError and generic
exceptions) print the formatted error and return `False`.  No exception
escapes. -/
def execute_query
    (financial_agent web_search_agent multi_agent : List Char → Except PyExc Unit)
    (query : List Char) (agent_type : List Char) : Bool :=
  let agent_map :=
    [(lstr "financial", (lstr "Financial Agent", financial_agent)),
     (lstr "web", (lstr "Web Search Agent", web_search_agent)),
     (lstr "multi", (lstr "Multi-Agent System", multi_agent))]
  let selected := lookupD agent_map agent_type (lstr "Multi-Agent System", multi_agent)
  match selected.2 query with
  | .ok _ => true
  | .error (.financial e) =>
    let _ := to_dict e
    false
  | .error e =>
    let _ := to_dict (handle_agent_execution_error e selected.1)
    false

/-! # The claims -/

/-- C1: For every string passed through the sensitive-data log filter, every
substring matching one of the six fixed secret patterns is replaced by the
marker `[REDACTED_API_KEY]` (whenever some pattern matched the input, the
output contains the marker), and the sanitized output contains no substring
matching any of these patterns. -/
theorem C1_sanitize_redacts_all_secrets :
    ∀ (s : List Char) (p : List Atom), p ∈ SENSITIVE_PATTERNS →
      hasMatch p (sanitize_text s) = false ∧
      (hasMatch p s = true → containsSub markerL (sanitize_text s) = true) :=
  fun s p hmem => ⟨sanitize_clean s p hmem, fun h => sanitize_marker hmem h⟩

/-- Witness for C1 at the concrete input `GROQ_API_KEY=secret_value_123`. -/
theorem C1_witness :
    (hasMatch pat2 (sanitize_text (lstr "GROQ_API_KEY=secret_value_123")) = false ∧
      (hasMatch pat2 (lstr "GROQ_API_KEY=secret_value_123") = true →
        containsSub markerL (sanitize_text (lstr "GROQ_API_KEY=secret_value_123")) = true)) ∧
    hasMatch pat2 (lstr "GROQ_API_KEY=secret_value_123") = true ∧
    sanitize_text (lstr "GROQ_API_KEY=secret_value_123") = markerL :=
  ⟨C1_sanitize_redacts_all_secrets (lstr "GROQ_API_KEY=secret_value_123") pat2
      (by simp [SENSITIVE_PATTERNS]),
    by decide, by decide⟩

/-- C7: a generic api-key or token assignment is redacted only when its
value has at least 20 characters.  (i)/(ii) With a value of at most 19
`[a-zA-Z0-9_-]` characters the generic api-key (resp. token) pattern does
not match at the assignment; (iii) a text matching no sensitive pattern
passes through the filter unchanged; (iv)/(v) the same `api_key=` (resp.
`token=`) assignment with 20 or more value characters is replaced by the
redaction marker. -/
theorem C7_twenty_char_threshold :
    (∀ v w : List Char, v.all isValChar = true → v.length ≤ 19 →
      (w = [] ∨ ∃ y w', w = y :: w' ∧ isValChar y = false ∧
        isWs y = false ∧ isQuote y = false) →
      run' pat4 (lstr "api_key=" ++ (v ++ w)) = none) ∧
    (∀ v w : List Char, v.all isValChar = true → v.length ≤ 19 →
      (w = [] ∨ ∃ y w', w = y :: w' ∧ isValChar y = false ∧
        isWs y = false ∧ isQuote y = false) →
      run' pat5 (lstr "token=" ++ (v ++ w)) = none) ∧
    (∀ s : List Char, (∀ p ∈ SENSITIVE_PATTERNS, hasMatch p s = false) →
      sanitize_text s = s) ∧
    (∀ v : List Char, v.all isValChar = true → 20 ≤ v.length →
      sanitize_text (lstr "api_key=" ++ v) = markerL) ∧
    (∀ v : List Char, v.all isValChar = true → 20 ≤ v.length →
      sanitize_text (lstr "token=" ++ v) = markerL) :=
  ⟨pat4_short_none, pat5_short_none, fun _ h => sanitize_id h,
    sanitize_apikey_long, sanitize_token_long⟩

/-- Witness for C7: 19-character values are left alone (for both the
api-key and the token assignment), 20-character values are redacted. -/
theorem C7_witness :
    run' pat4 (lstr "api_key=" ++ (lstr "abcdefghij012345678" ++ [])) = none ∧
    run' pat5 (lstr "token=" ++ (lstr "abcdefghij012345678" ++ [])) = none ∧
    sanitize_text (lstr "api_key=" ++ lstr "abcdefghij012345678") =
      lstr "api_key=" ++ lstr "abcdefghij012345678" ∧
    sanitize_text (lstr "token=" ++ lstr "abcdefghij012345678") =
      lstr "token=" ++ lstr "abcdefghij012345678" ∧
    sanitize_text (lstr "api_key=" ++ lstr "abcdefghij0123456789") = markerL ∧
    sanitize_text (lstr "token=" ++ lstr "abcdefghij0123456789") = markerL :=
  ⟨C7_twenty_char_threshold.1 (lstr "abcdefghij012345678") [] (by decide) (by decide)
      (Or.inl rfl),
    C7_twenty_char_threshold.2.1 (lstr "abcdefghij012345678") [] (by decide) (by decide)
      (Or.inl rfl),
    C7_twenty_char_threshold.2.2.1 (lstr "api_key=" ++ lstr "abcdefghij012345678")
      (by
        intro p hp
        rcases (by simpa [SENSITIVE_PATTERNS] using hp :
            p = pat1 ∨ p = pat2 ∨ p = pat3 ∨ p = pat4 ∨ p = pat5 ∨ p = pat6) with
          rfl | rfl | rfl | rfl | rfl | rfl <;> decide),
    C7_twenty_char_threshold.2.2.1 (lstr "token=" ++ lstr "abcdefghij012345678")
      (by
        intro p hp
        rcases (by simpa [SENSITIVE_PATTERNS] using hp :
            p = pat1 ∨ p = pat2 ∨ p = pat3 ∨ p = pat4 ∨ p = pat5 ∨ p = pat6) with
          rfl | rfl | rfl | rfl | rfl | rfl <;> decide),
    C7_twenty_char_threshold.2.2.2.1 (lstr "abcdefghij0123456789") (by decide) (by decide),
    C7_twenty_char_threshold.2.2.2.2 (lstr "abcdefghij0123456789") (by decide) (by decide)⟩

/-- C8: the log-sanitization function is idempotent: applying
`_sanitize_text` twice yields the same result as applying it once. -/
theorem C8_sanitize_idempotent :
    ∀ s : List Char, sanitize_text (sanitize_text s) = sanitize_text s :=
  sanitize_idem

/-- C10: `SensitiveDataFilter.filter` returns `True` for every log record;
it rewrites the record's message (sanitizing string messages) but never
suppresses a record. -/
theorem C10_filter_always_true :
    ∀ r : LogRecord, (SensitiveDataFilter_filter r).2 = true ∧
      (∀ s, r.msg = .vstr s →
        (SensitiveDataFilter_filter r).1.msg = .vstr (sanitize_text s)) := by
  intro r
  obtain ⟨msg, args⟩ := r
  refine ⟨rfl, fun s h => ?_⟩
  cases h
  rfl

/-- Witness for C10 at a concrete record. -/
theorem C10_witness :
    (SensitiveDataFilter_filter ⟨.vstr (lstr "hello"), .vnone⟩).2 = true ∧
    (SensitiveDataFilter_filter ⟨.vstr (lstr "hello"), .vnone⟩).1.msg =
      .vstr (sanitize_text (lstr "hello")) :=
  ⟨(C10_filter_always_true ⟨.vstr (lstr "hello"), .vnone⟩).1,
    (C10_filter_always_true ⟨.vstr (lstr "hello"), .vnone⟩).2 (lstr "hello") rfl⟩

/-- C5: the error taxonomy has exactly the six listed types; every
`FinancialAgentError` carries a message and a details mapping (empty when
none is supplied), and `to_dict` exposes exactly the keys `error`,
`error_type` and `details`, with `error_type` one of the six enum string
values. -/
theorem C5_error_taxonomy :
    (∀ t : ErrorType, t ∈ [ErrorType.configuration_error,
      ErrorType.agent_execution_error, ErrorType.api_error,
      ErrorType.validation_error, ErrorType.network_error,
      ErrorType.unknown_error]) ∧
    (∀ m ty, (FinancialAgentError_mk m ty none).details = []) ∧
    (∀ m ty d, (FinancialAgentError_mk m ty (some d)).details = d ∧
      (FinancialAgentError_mk m ty (some d)).message = m) ∧
    (∀ e : FinancialAgentError,
      (to_dict e).map Prod.fst = [lstr "error", lstr "error_type", lstr "details"] ∧
      to_dict e = [(lstr "error", .jstr e.message),
        (lstr "error_type", .jstr e.error_type.value),
        (lstr "details", .jdict e.details)] ∧
      e.error_type.value ∈ [lstr "configuration_error", lstr "agent_execution_error",
        lstr "api_error", lstr "validation_error", lstr "network_error",
        lstr "unknown_error"]) := by
  refine ⟨fun t => ?_, fun m ty => rfl, fun m ty d => ⟨rfl, rfl⟩,
    fun e => ⟨rfl, rfl, ?_⟩⟩
  · cases t <;> simp
  · cases e.error_type <;> simp [ErrorType.value]

/-- C3: every exception whose lowercased text contains `ticker`, `symbol` or
`not found` is classified by `handle_agent_execution_error` as an
invalid-ticker `AgentExecutionError`: fixed advisory message, and details
carrying the agent name, the category `invalid_ticker` and the original
error text. -/
theorem C3_invalid_ticker_classification :
    ∀ (error : PyExc) (agent_name : List Char),
      anyKeyword [lstr "ticker", lstr "symbol", lstr "not found"]
        (toLowerL error.text) = true →
      handle_agent_execution_error error agent_name =
        AgentExecutionError_mk invalidTickerMessage
          (some [(lstr "agent", .jstr agent_name),
            (lstr "error_category", .jstr (lstr "invalid_ticker")),
            (lstr "original_error", .jstr error.text)]) := by
  intro e an h
  simp only [handle_agent_execution_error]
  rw [if_pos h]

/-- Witness for C3 at a concrete invalid-ticker exception. -/
theorem C3_witness :
    anyKeyword [lstr "ticker", lstr "symbol", lstr "not found"]
      (toLowerL (PyExc.otherExc (lstr "HTTPError") (lstr "Ticker XYZQ not found")).text) = true ∧
    handle_agent_execution_error
        (PyExc.otherExc (lstr "HTTPError") (lstr "Ticker XYZQ not found"))
        (lstr "Financial Agent") =
      AgentExecutionError_mk invalidTickerMessage
        (some [(lstr "agent", .jstr (lstr "Financial Agent")),
          (lstr "error_category", .jstr (lstr "invalid_ticker")),
          (lstr "original_error", .jstr (lstr "Ticker XYZQ not found"))]) :=
  ⟨by decide,
    C3_invalid_ticker_classification
      (PyExc.otherExc (lstr "HTTPError") (lstr "Ticker XYZQ not found"))
      (lstr "Financial Agent") (by decide)⟩

/-- C2 counterexample: the exception text `429: not found` contains the
rate-limit keyword `429`, yet `handle_agent_execution_error` classifies it
as `invalid_ticker` (the ticker check runs first), and its message is not
the rate-limit advisory. -/
theorem C2_counterexample :
    anyKeyword [lstr "rate limit", lstr "too many requests", lstr "429"]
      (toLowerL (PyExc.otherExc (lstr "HTTPError") (lstr "429: not found")).text) = true ∧
    (handle_agent_execution_error
        (PyExc.otherExc (lstr "HTTPError") (lstr "429: not found"))
        (lstr "Agent")).details =
      [(lstr "agent", .jstr (lstr "Agent")),
       (lstr "error_category", .jstr (lstr "invalid_ticker")),
       (lstr "original_error", .jstr (lstr "429: not found"))] ∧
    (handle_agent_execution_error
        (PyExc.otherExc (lstr "HTTPError") (lstr "429: not found"))
        (lstr "Agent")).message ≠ rateLimitMessage :=
  ⟨by decide, rfl, by decide⟩

/-- C2 (amended): every exception whose lowercased text contains a
rate-limit keyword (`rate limit`, `too many requests` or `429`) and none of
the ticker keywords (`ticker`, `symbol`, `not found`) is classified into
the rate-limit category with the fixed rate-limit advisory message. -/
theorem C2_rate_limit_amended :
    ∀ (error : PyExc) (agent_name : List Char),
      anyKeyword [lstr "rate limit", lstr "too many requests", lstr "429"]
        (toLowerL error.text) = true →
      anyKeyword [lstr "ticker", lstr "symbol", lstr "not found"]
        (toLowerL error.text) = false →
      handle_agent_execution_error error agent_name =
        AgentExecutionError_mk rateLimitMessage
          (some [(lstr "agent", .jstr agent_name),
            (lstr "error_category", .jstr (lstr "rate_limit")),
            (lstr "original_error", .jstr error.text)]) := by
  intro e an hr ht
  simp only [handle_agent_execution_error]
  rw [if_neg (by simp [ht]), if_pos hr]

/-- Witness for the amended C2 at a concrete rate-limit exception. -/
theorem C2_witness :
    anyKeyword [lstr "rate limit", lstr "too many requests", lstr "429"]
      (toLowerL (PyExc.otherExc (lstr "HTTPError") (lstr "Rate limit exceeded")).text) = true ∧
    anyKeyword [lstr "ticker", lstr "symbol", lstr "not found"]
      (toLowerL (PyExc.otherExc (lstr "HTTPError") (lstr "Rate limit exceeded")).text) = false ∧
    handle_agent_execution_error
        (PyExc.otherExc (lstr "HTTPError") (lstr "Rate limit exceeded"))
        (lstr "Agent") =
      AgentExecutionError_mk rateLimitMessage
        (some [(lstr "agent", .jstr (lstr "Agent")),
          (lstr "error_category", .jstr (lstr "rate_limit")),
          (lstr "original_error", .jstr (lstr "Rate limit exceeded"))]) :=
  ⟨by decide, by decide,
    C2_rate_limit_amended
      (PyExc.otherExc (lstr "HTTPError") (lstr "Rate limit exceeded"))
      (lstr "Agent") (by decide) (by decide)⟩

/-- C4: `handle_api_error` always produces an `APIError` whose message
follows the status-code table (400, 401, 403, 404, 429, 500, 503; any other
or absent status gives the generic `API error occurred: <text>` message),
and a non-zero status code is recorded in the details mapping while `0` or
`None` is not. -/
theorem C4_api_error_status_table :
    ∀ error : PyExc,
      (∀ sc, (handle_api_error error sc).error_type = ErrorType.api_error) ∧
      (handle_api_error error (some 400)).message =
        lstr "Invalid request format. Please check your query and try again." ∧
      (handle_api_error error (some 401)).message =
        lstr "Authentication failed. Please check your API keys." ∧
      (handle_api_error error (some 403)).message =
        lstr "Access forbidden. Please verify your API key permissions." ∧
      (handle_api_error error (some 404)).message =
        lstr "Resource not found. Please check your request." ∧
      (handle_api_error error (some 429)).message =
        lstr "Rate limit exceeded. Please wait and try again." ∧
      (handle_api_error error (some 500)).message =
        lstr "Internal server error. Please try again later." ∧
      (handle_api_error error (some 503)).message =
        lstr "Service temporarily unavailable. Please try again later." ∧
      (∀ n : Int, n ∉ ([400, 401, 403, 404, 429, 500, 503] : List Int) →
        (handle_api_error error (some n)).message =
          lstr "API error occurred: " ++ error.text) ∧
      (handle_api_error error none).message =
        lstr "API error occurred: " ++ error.text ∧
      (∀ n : Int, n ≠ 0 → (handle_api_error error (some n)).details =
        [(lstr "original_error", .jstr error.text),
         (lstr "exception_type", .jstr error.typeName),
         (lstr "status_code", .jint n)]) ∧
      (handle_api_error error (some 0)).details =
        [(lstr "original_error", .jstr error.text),
         (lstr "exception_type", .jstr error.typeName)] ∧
      (handle_api_error error none).details =
        [(lstr "original_error", .jstr error.text),
         (lstr "exception_type", .jstr error.typeName)] := by
  intro error
  refine ⟨fun sc => rfl, rfl, rfl, rfl, rfl, rfl, rfl, rfl, ?_, rfl, ?_, rfl, rfl⟩
  · intro n hn
    simp only [List.mem_cons, List.not_mem_nil, or_false, not_or] at hn
    obtain ⟨h1, h2, h3, h4, h5, h6, h7⟩ := hn
    simp [handle_api_error, APIError_mk, FinancialAgentError_mk,
      h1, h2, h3, h4, h5, h6, h7]
  · intro n hn
    simp [handle_api_error, APIError_mk, FinancialAgentError_mk, hn]

/-- Witness for C4 at a concrete exception and status codes. -/
theorem C4_witness :
    (handle_api_error (PyExc.otherExc (lstr "HTTPError") (lstr "boom")) (some 404)).message =
      lstr "Resource not found. Please check your request." ∧
    (handle_api_error (PyExc.otherExc (lstr "HTTPError") (lstr "boom")) (some 418)).message =
      lstr "API error occurred: " ++ (PyExc.otherExc (lstr "HTTPError") (lstr "boom")).text ∧
    (handle_api_error (PyExc.otherExc (lstr "HTTPError") (lstr "boom")) (some 418)).details =
      [(lstr "original_error", .jstr (PyExc.otherExc (lstr "HTTPError") (lstr "boom")).text),
       (lstr "exception_type", .jstr (PyExc.otherExc (lstr "HTTPError") (lstr "boom")).typeName),
       (lstr "status_code", .jint 418)] :=
  ⟨(C4_api_error_status_table (PyExc.otherExc (lstr "HTTPError") (lstr "boom"))).2.2.2.2.1,
    (C4_api_error_status_table (PyExc.otherExc (lstr "HTTPError") (lstr "boom"))).2.2.2.2.2.2.2.2.1
      418 (by decide),
    (C4_api_error_status_table (PyExc.otherExc (lstr "HTTPError") (lstr "boom"))).2.2.2.2.2.2.2.2.2.2.1
      418 (by decide)⟩

/-- C9: the claim says a `ConnectionError` or `TimeoutError` maps to
`network_error`, matching the (unreachable) `elif` branch in
`format_error_response`; but in Python both are subclasses of
`OSError` (= `IOError`), so the first `isinstance(error, (FileNotFoundError,
IOError))` branch catches them and the code actually returns
`configuration_error`.  This theorem evaluates the code at the failing
input. -/
theorem C9_connection_error_is_configuration :
    format_error_response (PyExc.connectionError (lstr "connection refused")) =
      [(lstr "error", .jstr (lstr "connection refused")),
       (lstr "error_type", .jstr (lstr "configuration_error")),
       (lstr "details", .jdict [(lstr "exception_type",
          .jstr (lstr "ConnectionError"))])] ∧
    format_error_response (PyExc.timeoutError (lstr "timed out")) =
      [(lstr "error", .jstr (lstr "timed out")),
       (lstr "error_type", .jstr (lstr "configuration_error")),
       (lstr "details", .jdict [(lstr "exception_type",
          .jstr (lstr "TimeoutError"))])] :=
  ⟨rfl, rfl⟩

/-- C6: `execute_query` makes a single synchronous call to the selected
agent's `run` method (selection by `agent_map` with the multi-agent system
as default) and returns `True` exactly when that call completes without
raising; on any exception it returns `False`, and no exception propagates
(the function is total into `Bool`). -/
theorem C6_execute_query_success_iff_ok :
    ∀ (financial_agent web_search_agent multi_agent :
        List Char → Except PyExc Unit) (query agent_type : List Char),
      execute_query financial_agent web_search_agent multi_agent query agent_type =
        exceptOk ((lookupD
          [(lstr "financial", (lstr "Financial Agent", financial_agent)),
           (lstr "web", (lstr "Web Search Agent", web_search_agent)),
           (lstr "multi", (lstr "Multi-Agent System", multi_agent))] agent_type
          (lstr "Multi-Agent System", multi_agent)).2 query) := by
  intro fa wa ma query aty
  simp only [execute_query]
  cases hr : (lookupD
      [(lstr "financial", (lstr "Financial Agent", fa)),
       (lstr "web", (lstr "Web Search Agent", wa)),
       (lstr "multi", (lstr "Multi-Agent System", ma))] aty
      (lstr "Multi-Agent System", ma)).2 query with
  | ok u => rfl
  | error e => cases e <;> rfl

end FinanceGPT
